import Mathlib

/-!
# sfphytune: parameter codec, transport adapter and eye-scan loop

A shallow embedding of `src/sfphytune.c`.

* C strings are lists of characters; reading past the end of the list reads the
  terminating NUL (`List.getD _ _ '\x00'`, `List.headD _ '\x00'`).
* `uint32_t` values are natural numbers below `2 ^ 32`; every place where the C
  arithmetic can wrap carries an explicit `% 2 ^ 32`.
* A buffer of `uint32_t` is a list of words as the host reads them; the host byte
  order is a parameter (`be = true` for a big-endian host), so `htole32`/`le32toh`
  keep their meaning.
* Standard output and standard error are strings that grow by appending.
* The kernel (socket, ioctl) is an explicit answer passed to each transport call.
* A local array has its declared number of words; a `memcpy` that would read or write
  outside its arrays has no defined result, and the call that makes it returns `none`.
-/

namespace Sfphytune

/-! ## Tables (lines 17-42) -/

/-- Receive-equalization parameter names, in wire order. -/
def rxeq_param : List String :=
  ["Attenuation", "CTLE_Boost", "DFE_Tap1", "DFE_Tap2", "DFE_Tap3", "DFE_Tap4", "DFE_Tap5",
   "DFE_Gain"]

/-- Transmit-equalization parameter names, in wire order. -/
def txeq_param : List String :=
  ["Amplitude", "Deemphasis_Tap1", "Deemphasis_Tap1_Fine", "Deemphasis_Tap2",
   "Deemphasis_Tap2_Fine", "Preemphasis", "Preemphasis_Fine", "Slew_Rate", "Slew_Rate_Fine",
   "Termination"]

/-- Number of entries of the receive table (`sizeof` quotient of line 41). -/
def rxeq_param_count : Nat := rxeq_param.length

/-- Number of entries of the transmit table (`sizeof` quotient of line 42). -/
def txeq_param_count : Nat := txeq_param.length

/-! ## Byte order (`<endian.h>`) -/

/-- Byte reversal of a 32-bit word. -/
def bswap32 (x : Nat) : Nat :=
  (x % 256) * 16777216 + (x / 256 % 256) * 65536 + (x / 65536 % 256) * 256 + (x / 16777216 % 256)

/-- Host order to little-endian order: the identity on a little-endian host, a byte
reversal on a big-endian one. -/
def htole32 (be : Bool) (x : Nat) : Nat := if be then bswap32 x else x

/-- Little-endian order to host order. -/
def le32toh (be : Bool) (x : Nat) : Nat := if be then bswap32 x else x

/-! ## C library: `strchr`, `strtoul` (C locale, 64-bit `unsigned long`) -/

/-- Largest `unsigned long` (LP64). -/
def ULONG_MAX : Nat := 2 ^ 64 - 1

/-- The call `strchr(s, c)` for `c ≠ 0`: the text before the first `c` and the text
from that `c` on, or `none` (a NULL result) when the string ends (at the end of the
list or at a NUL) before any `c`. -/
def strchr : List Char → Char → Option (List Char × List Char)
  | [], _ => none
  | x :: xs, c =>
    if x = c then some ([], x :: xs)
    else if x = '\x00' then none
    else match strchr xs c with
      | some (pre, post) => some (x :: pre, post)
      | none => none

/-- The predicate `isspace` in the C locale: space, `\t`, `\n`, `\v`, `\f`, `\r`. -/
def isspace (c : Char) : Bool := c.toNat = 32 || (9 ≤ c.toNat && c.toNat ≤ 13)

/-- Value of a character as a digit of `strtoul`: `0-9`, then letters of either case
from 10 upwards. -/
def digit_val (c : Char) : Option Nat :=
  if 48 ≤ c.toNat ∧ c.toNat ≤ 57 then some (c.toNat - 48)
  else if 97 ≤ c.toNat ∧ c.toNat ≤ 122 then some (c.toNat - 97 + 10)
  else if 65 ≤ c.toNat ∧ c.toNat ≤ 90 then some (c.toNat - 65 + 10)
  else none

/-- Digit loop of `strtoul`: consumes the longest run of digits valid in `base`,
returning how many were consumed, the number they denote, and the unread text. -/
def scan_digits (base : Nat) : List Char → Nat → Nat → Nat × Nat × List Char
  | [], n, acc => (n, acc, [])
  | c :: cs, n, acc =>
    match digit_val c with
    | some d => if d < base then scan_digits base cs (n + 1) (acc * base + d) else (n, acc, c :: cs)
    | none => (n, acc, c :: cs)

/-- The call `strtoul(nptr, &end, 0)`: the converted value and the text `end` points
at. White space is skipped, one sign is taken, the base is 16 after `0x`/`0X`, 8 after
`0`, else 10. With no digit to convert the value is 0 and `end` is `nptr` (after a bare
`0x` the `0` is converted and `end` is at the `x`). A value above `ULONG_MAX` is
clamped to it; a `-` negates modulo `2 ^ 64`. -/
def strtoul (nptr : List Char) : Nat × List Char :=
  let s := nptr.dropWhile isspace
  let neg := s.headD '\x00' = '-'
  let s := if s.headD '\x00' = '-' ∨ s.headD '\x00' = '+' then s.drop 1 else s
  let hex := s.headD '\x00' = '0' ∧ ((s.drop 1).headD '\x00' = 'x' ∨ (s.drop 1).headD '\x00' = 'X')
  let base := if hex then 16 else if s.headD '\x00' = '0' then 8 else 10
  let digits := if hex then s.drop 2 else s
  let (n, v, rest) := scan_digits base digits 0 0
  if n = 0 then
    if hex then (0, s.drop 1) else (0, nptr)
  else if v > ULONG_MAX then (ULONG_MAX, rest)
  else if neg then ((2 ^ 64 - v) % 2 ^ 64, rest)
  else (v, rest)

/-! ## Parameter codec (lines 44-110) -/

/-- The five bit fields read from a word (lines 55-59). -/
structure Fields where
  param : Nat
  lane : Nat
  autocal : Nat
  initial : Nat
  current : Nat
  deriving DecidableEq

/-- Field extraction of `show_param` (lines 55-59); `val` is the host-order word. -/
def fields (val : Nat) : Fields where
  param := val &&& 0xff
  lane := (val >>> 8) &&& 7
  autocal := (val >>> 11) &&& 1
  initial := (val >>> 16) &&& 0xff
  current := (val >>> 24) &&& 0xff

/-- Which `printf` of `show_param` runs for an entry, with its arguments. -/
inductive Report where
  | unknown (param : Nat)
  | tracked (lane : Nat) (label : String) (current initial : Nat)
  | fixed (lane : Nat) (label : String) (initial : Nat)
  deriving DecidableEq

/-- Display policy of `show_param` (lines 60-69). -/
def report (param_names : List String) (param_count : Nat) (f : Fields) : Report :=
  if f.param ≥ param_count then .unknown f.param
  else
    let label := param_names.getD f.param ""
    if f.autocal ≠ 0 then .tracked f.lane label f.current f.initial
    else .fixed f.lane label f.initial

/-- Text written by the chosen `printf` (lines 62, 67, 69); `%u` is `Nat.repr`. -/
def Report.render : Report → String
  | .unknown p => "unknown parameter " ++ Nat.repr p ++ "\n"
  | .tracked l s c i =>
    "Lane" ++ Nat.repr l ++ "." ++ s ++ "=" ++ Nat.repr c ++ " (initial=" ++ Nat.repr i ++ ")\n"
  | .fixed l s i => "Lane" ++ Nat.repr l ++ "." ++ s ++ "=" ++ Nat.repr i ++ "\n"

/-- One iteration of the loop of `show_param` on the stored word `w` (lines 54-69). -/
def show_entry (be : Bool) (param_names : List String) (param_count : Nat) (w : Nat) : Report :=
  report param_names param_count (fields (le32toh be w))

/-- The function `show_param` (lines 44-71): one `printf` per word `buf[i]`,
`i < len/4`, in order. The result lists the `printf` calls; their texts are appended to
standard output by the callers. -/
def show_param (be : Bool) (buf : List Nat) (len : Nat) (param_names : List String)
    (param_count : Nat) : List Report :=
  (List.range (len / 4)).map fun i => show_entry be param_names param_count (buf.getD i 0)

/-- The lookup loop of `set_param` (lines 100-107): first index `i < param_count` with
`strcmp(param_names[i], label) == 0`. -/
def find_param (param_names : List String) (param_count : Nat) (label : List Char) : Option Nat :=
  (List.range param_count).find? fun i => (param_names.getD i "").toList = label

/-- The function `set_param` (lines 73-110): `some w` when it returns 1 having stored
`w` in `*outval`, `none` when it returns 0. -/
def set_param (be : Bool) (desc : List Char) (param_names : List String) (param_count : Nat) :
    Option Nat :=
  if desc.take 4 ≠ ['L', 'a', 'n', 'e'] then none
  else if (desc.getD 4 '\x00').toNat < 48 ∨ (desc.getD 4 '\x00').toNat > 52 then none
  else
    let lane := (desc.getD 4 '\x00').toNat - 48
    if desc.getD 5 '\x00' ≠ '.' then none
    else
      match strchr (desc.drop 6) '=' with
      | none => none
      | some (label, valp) =>
        let conv := strtoul (valp.drop 1)
        let val := conv.1 % 2 ^ 32
        let autocal := if conv.2.headD '\x00' = '+' then 1 else 0
        let valp := if autocal ≠ 0 then conv.2.drop 1 else conv.2
        if valp.headD '\x00' ≠ '\x00' then none
        else
          match find_param param_names param_count label with
          | some i =>
            some (htole32 be
              ((i ||| (lane <<< 8) ||| (autocal <<< 11) ||| ((val <<< 16) % 2 ^ 32)) % 2 ^ 32))
          | none => none

/-! ## Transport adapter (lines 112-158) -/

/-- Constants and sizes of `efx_ioctl.h` and `mcdi_pcol.h`, and `strerror` of the C
library: they are used by the source and declared outside it. -/
structure Headers where
  sizeof_efx : Nat
  payload_offset : Nat
  EFX_MCDI_REQUEST_ERROR : Nat
  MC_CMD_KR_TUNE : Nat
  MC_CMD_KR_TUNE_IN_RXEQ_GET : Nat
  MC_CMD_KR_TUNE_IN_RXEQ_SET : Nat
  MC_CMD_KR_TUNE_IN_TXEQ_GET : Nat
  MC_CMD_KR_TUNE_IN_TXEQ_SET : Nat
  MC_CMD_KR_TUNE_IN_RECAL : Nat
  MC_CMD_KR_TUNE_IN_START_EYE_PLOT : Nat
  MC_CMD_KR_TUNE_IN_POLL_EYE_PLOT : Nat
  MC_CMD_KR_TUNE_RXEQ_GET_OUT_LENMAX : Nat
  MC_CMD_KR_TUNE_TXEQ_GET_OUT_LENMAX : Nat
  MC_CMD_KR_TUNE_POLL_EYE_PLOT_OUT_LENMAX : Nat
  strerror : Nat → String

/-- The error number `ENOMEM` (Linux). -/
def ENOMEM : Nat := 12

/-- A transport action: a system call made by `efx_mcdi_rpc`. -/
inductive Syscall where
  | socket
  | ioctl (fd : Int) (cmd inlen outlen : Nat) (payload : List Nat)
  | close (fd : Int)
  deriving DecidableEq

/-- Process state the program reads or changes. -/
structure World where
  errno : Nat
  open_fds : List Int
  trace : List Syscall
  stdout : String
  stderr : String
  deriving DecidableEq

/-- What the kernel answers during one transport call: the result of `socket`, the
result of `ioctl`, and the request structure as the driver leaves it (`payload` holds
the words of the payload array as the host reads them; words past the end of the list
are 0). -/
structure Kernel where
  socket_rc : Int
  socket_errno : Nat
  ioctl_rc : Int
  ioctl_errno : Nat
  flags : Nat
  host_errno : Nat
  outlen : Nat
  payload : List Nat
  deriving DecidableEq

/-- Outcome of a call of `efx_mcdi_rpc` that returns: the return value, the caller's
`outbuf` and `*outlen_actual` (meaningful for callers that pass them), and the new
state. -/
structure RpcResult where
  rc : Int
  outbuf : List Nat
  outlen_actual : Nat
  world : World
  deriving DecidableEq

/-- A local array `uint32_t a[n]`: `n` words whose initial content is whatever the
stack holds, given by `junk`. -/
def local_array (n : Nat) (junk : List Nat) : List Nat :=
  (List.range n).map fun i => junk.getD i 0

/-- A word whose first `r` bytes in memory (`0 < r < 4`) come from `src` and whose other
bytes stay those of `dst`: the low bytes on a little-endian host, the high bytes on a
big-endian one. -/
def merge_word (be : Bool) (r src dst : Nat) : Nat :=
  if r = 0 then dst
  else if be then src / 256 ^ (4 - r) % 256 ^ r * 256 ^ (4 - r) + dst % 256 ^ (4 - r)
  else src % 256 ^ r + dst / 256 ^ r % 256 ^ (4 - r) * 256 ^ r

/-- The call `memcpy(outbuf, payload, n)` for `n` bytes that fit in `outbuf`: the first
`n/4` words become those of `payload`, the next word takes its first `n%4` bytes from
`payload`, the other words are unchanged. -/
def memcpy_words (be : Bool) (outbuf payload : List Nat) (n : Nat) : List Nat :=
  (List.range outbuf.length).map fun i =>
    if i < n / 4 then payload.getD i 0
    else if i = n / 4 then merge_word be (n % 4) (payload.getD i 0) (outbuf.getD i 0)
    else outbuf.getD i 0

/-- The call `close(fd)`. -/
def close (w : World) (fd : Int) : World :=
  { w with open_fds := w.open_fds.erase fd, trace := w.trace ++ [Syscall.close fd] }

/-- The function `efx_mcdi_rpc` (lines 112-158). The interface name only travels to the
kernel and is left out; `k` is what the kernel answers if it is asked; a NULL `outbuf`
is the empty array. The success path (lines 148-151) has no `close`. The result is
`none` when the `memcpy` of line 150 reads past the payload array or writes past the
end of `outbuf` (or through NULL): the behaviour is undefined and the process is
normally killed. -/
def efx_mcdi_rpc (h : Headers) (be : Bool) (k : Kernel) (w : World) (cmd : Nat)
    (inbuf : List Nat) (inlen : Nat) (outbuf : List Nat) (outlen : Nat) (outlen_actual : Nat) :
    Option RpcResult :=
  let bufsize := h.sizeof_efx - h.payload_offset
  if inlen > bufsize ∨ outlen > bufsize then
    some ⟨-1, outbuf, outlen_actual, { w with errno := ENOMEM }⟩
  else
    let w := { w with trace := w.trace ++ [Syscall.socket] }
    if k.socket_rc = -1 then
      some ⟨-1, outbuf, outlen_actual, { w with errno := k.socket_errno }⟩
    else
      let fd := k.socket_rc
      let w := { w with open_fds := fd :: w.open_fds }
      let w :=
        { w with trace := w.trace ++ [Syscall.ioctl fd cmd inlen outlen (inbuf.take (inlen / 4))] }
      if k.ioctl_rc ≠ 0 then
        some ⟨-1, outbuf, outlen_actual, close { w with errno := k.ioctl_errno } fd⟩
      else if k.flags &&& h.EFX_MCDI_REQUEST_ERROR ≠ 0 then
        some ⟨-1, outbuf, outlen_actual, close { w with errno := k.host_errno } fd⟩
      else if k.outlen > bufsize ∨ k.outlen > 4 * outbuf.length then none
      else some ⟨0, memcpy_words be outbuf k.payload k.outlen, k.outlen, w⟩

/-! ## Commands (lines 160-312) -/

/-- The call `perror(s)`. -/
def perror (h : Headers) (w : World) (s : String) : World :=
  { w with stderr := w.stderr ++ s ++ ": " ++ h.strerror w.errno ++ "\n" }

/-- The call `printf` with the finished text `s`. -/
def printf (w : World) (s : String) : World := { w with stdout := w.stdout ++ s }

/-- The call `fprintf(stderr, ...)` with the finished text `s`. -/
def eprintf (w : World) (s : String) : World := { w with stderr := w.stderr ++ s }

/-- Size in bytes of a local `uint32_t outbuf[lenmax/4]`. -/
def sizeof_outbuf (lenmax : Nat) : Nat := lenmax / 4 * 4

/-- The function `efx_get_rxeq` (lines 160-177); `junk` is the initial content of the
local `outbuf`. The result is `none` when the transport call has no defined result. -/
def efx_get_rxeq (h : Headers) (be : Bool) (k : Kernel) (junk : List Nat) (w : World) :
    Option (Int × World) :=
  let inbuf := [htole32 be h.MC_CMD_KR_TUNE_IN_RXEQ_GET]
  let outbuf := local_array (h.MC_CMD_KR_TUNE_RXEQ_GET_OUT_LENMAX / 4) junk
  match efx_mcdi_rpc h be k w h.MC_CMD_KR_TUNE inbuf 4 outbuf
    (sizeof_outbuf h.MC_CMD_KR_TUNE_RXEQ_GET_OUT_LENMAX) 0 with
  | none => none
  | some r =>
    if r.rc ≠ 0 then some (1, perror h r.world "MC_CMD_KR_TUNE_IN_RXEQ_GET")
    else
      some (0, printf r.world (String.join
        ((show_param be r.outbuf r.outlen_actual rxeq_param rxeq_param_count).map
          Report.render)))

/-- The function `efx_set_rxeq` (lines 179-197). -/
def efx_set_rxeq (h : Headers) (be : Bool) (k : Kernel) (desc : List Char) (w : World) :
    Option (Int × World) :=
  match set_param be desc rxeq_param rxeq_param_count with
  | none => some (1, eprintf w "parse error\n")
  | some v =>
    let inbuf := [htole32 be h.MC_CMD_KR_TUNE_IN_RXEQ_SET, v]
    match efx_mcdi_rpc h be k w h.MC_CMD_KR_TUNE inbuf 8 [] 0 0 with
    | none => none
    | some r =>
      if r.rc ≠ 0 then some (1, perror h r.world "MC_CMD_KR_TUNE_IN_RXEQ_SET")
      else some (0, r.world)

/-- The function `efx_get_txeq` (lines 199-216). -/
def efx_get_txeq (h : Headers) (be : Bool) (k : Kernel) (junk : List Nat) (w : World) :
    Option (Int × World) :=
  let inbuf := [htole32 be h.MC_CMD_KR_TUNE_IN_TXEQ_GET]
  let outbuf := local_array (h.MC_CMD_KR_TUNE_TXEQ_GET_OUT_LENMAX / 4) junk
  match efx_mcdi_rpc h be k w h.MC_CMD_KR_TUNE inbuf 4 outbuf
    (sizeof_outbuf h.MC_CMD_KR_TUNE_TXEQ_GET_OUT_LENMAX) 0 with
  | none => none
  | some r =>
    if r.rc ≠ 0 then some (1, perror h r.world "MC_CMD_KR_TUNE_IN_TXEQ_GET")
    else
      some (0, printf r.world (String.join
        ((show_param be r.outbuf r.outlen_actual txeq_param txeq_param_count).map
          Report.render)))

/-- The function `efx_set_txeq` (lines 218-236). -/
def efx_set_txeq (h : Headers) (be : Bool) (k : Kernel) (desc : List Char) (w : World) :
    Option (Int × World) :=
  match set_param be desc txeq_param txeq_param_count with
  | none => some (1, eprintf w "parse error\n")
  | some v =>
    let inbuf := [htole32 be h.MC_CMD_KR_TUNE_IN_TXEQ_SET, v]
    match efx_mcdi_rpc h be k w h.MC_CMD_KR_TUNE inbuf 8 [] 0 0 with
    | none => none
    | some r =>
      if r.rc ≠ 0 then some (1, perror h r.world "MC_CMD_KR_TUNE_IN_TXEQ_SET")
      else some (0, r.world)

/-- The function `efx_calibrate` (lines 238-251). -/
def efx_calibrate (h : Headers) (be : Bool) (k : Kernel) (w : World) : Option (Int × World) :=
  let inbuf := [htole32 be h.MC_CMD_KR_TUNE_IN_RECAL]
  match efx_mcdi_rpc h be k w h.MC_CMD_KR_TUNE inbuf 4 [] 0 0 with
  | none => none
  | some r =>
    if r.rc ≠ 0 then some (1, perror h r.world "MC_CMD_KR_TUNE_IN_RECAL") else some (0, r.world)

/-- The function `efx_get_lane` (lines 253-270): the return value, `*lane` when it is
stored, and the new state; `none` when the transport call has no defined result or
`outbuf` has no element 0 to read. -/
def efx_get_lane (h : Headers) (be : Bool) (k : Kernel) (junk : List Nat) (w : World) :
    Option (Int × Option Nat × World) :=
  let inbuf := [htole32 be h.MC_CMD_KR_TUNE_IN_RXEQ_GET]
  let outbuf := local_array (h.MC_CMD_KR_TUNE_RXEQ_GET_OUT_LENMAX / 4) junk
  match efx_mcdi_rpc h be k w h.MC_CMD_KR_TUNE inbuf 4 outbuf
    (sizeof_outbuf h.MC_CMD_KR_TUNE_RXEQ_GET_OUT_LENMAX) 0 with
  | none => none
  | some r =>
    if r.rc ≠ 0 then some (1, none, perror h r.world "MC_CMD_KR_TUNE_IN_RXEQ_GET")
    else if r.outbuf.length = 0 then none
    else some (0, some ((r.outbuf.getD 0 0 >>> 8) &&& 7), r.world)

/-- Text printed for one poll response (lines 304-309): `"%u %u "` for each of the
`outlen/4` words `outbuf[i]`, then a newline. The word printed is `outbuf[i]` itself;
the `val = le32toh(outbuf[i])` of line 306 is not used. -/
def eye_batch (outbuf : List Nat) (outlen : Nat) : String :=
  String.join ((List.range (outlen / 4)).map fun i =>
    Nat.repr (outbuf.getD i 0 &&& 0xffff) ++ " " ++ Nat.repr ((outbuf.getD i 0 >>> 16) &&& 0xffff)
      ++ " ") ++ "\n"

/-- How a run of the eye-scan ends. -/
inductive Run (α : Type) where
  | returned (a : α)
  | undefined
  | polling
  deriving DecidableEq

/-- The loop of `efx_get_eye` (lines 291-310), one iteration per kernel answer. The
result is the return value, the final state and the answers never asked for;
`Run.polling` when the answers run out while the loop is still polling, and
`Run.undefined` when a transport call has no defined result. -/
def eye_loop (h : Headers) (be : Bool) (lane_word : Nat) :
    List Kernel → List Nat → World → Run (Int × World × List Kernel)
  | [], _, _ => .polling
  | k :: ks, outbuf, w =>
    let inbuf := [htole32 be h.MC_CMD_KR_TUNE_IN_POLL_EYE_PLOT, lane_word]
    match efx_mcdi_rpc h be k w h.MC_CMD_KR_TUNE inbuf 4 outbuf
      (sizeof_outbuf h.MC_CMD_KR_TUNE_POLL_EYE_PLOT_OUT_LENMAX) 0 with
    | none => .undefined
    | some r =>
      if r.rc ≠ 0 then .returned (1, perror h r.world "MC_CMD_KR_TUNE_IN_POLL_EYE_PLOT", ks)
      else if r.outlen_actual = 0 then .returned (0, r.world, ks)
      else
        eye_loop h be lane_word ks r.outbuf (printf r.world (eye_batch r.outbuf r.outlen_actual))

/-- The function `efx_get_eye` (lines 272-312): `kq` answers the lane query, `ks` the
start request, `polls` the successive polls; `junk1`, `junk2` are the initial contents
of the local `outbuf` arrays of `efx_get_lane` and `efx_get_eye`. -/
def efx_get_eye (h : Headers) (be : Bool) (kq ks : Kernel) (polls : List Kernel)
    (junk1 junk2 : List Nat) (w : World) : Run (Int × World × List Kernel) :=
  match efx_get_lane h be kq junk1 w with
  | none => .undefined
  | some (_, none, w1) => .returned (1, w1, polls)
  | some (_, some val, w1) =>
    let inbuf := [htole32 be h.MC_CMD_KR_TUNE_IN_START_EYE_PLOT, htole32 be val]
    match efx_mcdi_rpc h be ks w1 h.MC_CMD_KR_TUNE inbuf 8 [] 0 0 with
    | none => .undefined
    | some r =>
      if r.rc ≠ 0 then
        .returned (1, perror h r.world "MC_CMD_KR_TUNE_IN_START_EYE_PLOT", polls)
      else
        eye_loop h be (htole32 be val) polls
          (local_array (h.MC_CMD_KR_TUNE_POLL_EYE_PLOT_OUT_LENMAX / 4) junk2) r.world

/-! ## Vocabulary of the statements -/

/-- The setter text `Lane<d>.<name>=<v>`, followed by `+` when `a` is set, the lane
and the value written in decimal. -/
def setter_text (d : Nat) (name : String) (v : Nat) (a : Bool) : List Char :=
  ['L', 'a', 'n', 'e'] ++ Nat.toDigits 10 d ++ ['.'] ++ name.toList ++ ['='] ++ Nat.toDigits 10 v
    ++ (if a then ['+'] else [])

/-- The wire word with ordinal `i`, lane `d`, autocal flag `a` and value `v`. -/
def wire_word (i d : Nat) (a : Bool) (v : Nat) : Nat :=
  i ||| (d <<< 8) ||| ((if a then 1 else 0) <<< 11) ||| (v <<< 16)

/-- The number a report shows as the value of the parameter (the one after `=`). -/
def Report.value : Report → Option Nat
  | .unknown _ => none
  | .tracked _ _ c _ => some c
  | .fixed _ _ i => some i

/-- Text left once the optional autocal marker `+` is taken (lines 94-96). -/
def strip_plus (r : List Char) : List Char := if r.headD '\x00' = '+' then r.drop 1 else r

/-- The autocal bit read from the text `strtoul` stopped at (line 94). -/
def marker (r : List Char) : Nat := if r.headD '\x00' = '+' then 1 else 0

/-- The word of line 104, before `htole32`. -/
def encode (i lane autocal val : Nat) : Nat :=
  (i ||| (lane <<< 8) ||| (autocal <<< 11) ||| ((val <<< 16) % 2 ^ 32)) % 2 ^ 32

/-- A transport call of these sizes fails under the kernel answer `k`: the capacity
guard trips, `socket` fails, `ioctl` fails, or the controller flags an error. -/
def rpc_fails (h : Headers) (k : Kernel) (inlen outlen : Nat) : Prop :=
  inlen > h.sizeof_efx - h.payload_offset ∨ outlen > h.sizeof_efx - h.payload_offset ∨
    k.socket_rc = -1 ∨ k.ioctl_rc ≠ 0 ∨ k.flags &&& h.EFX_MCDI_REQUEST_ERROR ≠ 0

instance (h : Headers) (k : Kernel) (inlen outlen : Nat) :
    Decidable (rpc_fails h k inlen outlen) := by
  unfold rpc_fails
  infer_instance

/-- A poll of the eye-scan fails under the kernel answer `k`. -/
def poll_failed (h : Headers) (k : Kernel) : Prop :=
  rpc_fails h k 4 (sizeof_outbuf h.MC_CMD_KR_TUNE_POLL_EYE_PLOT_OUT_LENMAX)

instance (h : Headers) (k : Kernel) : Decidable (poll_failed h k) := by
  unfold poll_failed
  infer_instance

/-- The low and high 16 bits of each of the `outlen/4` words of a poll response, the
words taken as the host reads them from memory. -/
def host_pairs (k : Kernel) : List (Nat × Nat) :=
  (List.range (k.outlen / 4)).map fun i =>
    (k.payload.getD i 0 % 65536, k.payload.getD i 0 / 65536 % 65536)

/-- The sample pairs of a poll response: low and high 16 bits of each of its `outlen/4`
little-endian wire words. -/
def wire_pairs (be : Bool) (k : Kernel) : List (Nat × Nat) :=
  (List.range (k.outlen / 4)).map fun i =>
    (le32toh be (k.payload.getD i 0) % 65536, le32toh be (k.payload.getD i 0) / 65536 % 65536)

/-- The result of a run that returned. -/
def Run.get? {α : Type} : Run α → Option α
  | .returned a => some a
  | .undefined => none
  | .polling => none

/-- One output line for a batch of pairs: `<low> <high> ` per pair, then a newline. -/
def pairs_line (ps : List (Nat × Nat)) : String :=
  String.join (ps.map fun p => Nat.repr p.1 ++ " " ++ Nat.repr p.2 ++ " ") ++ "\n"

/-- Header values used in the worked examples (the theorems hold for all values). -/
def example_headers : Headers where
  sizeof_efx := 1044
  payload_offset := 16
  EFX_MCDI_REQUEST_ERROR := 1
  MC_CMD_KR_TUNE := 0xf1
  MC_CMD_KR_TUNE_IN_RXEQ_GET := 0
  MC_CMD_KR_TUNE_IN_RXEQ_SET := 1
  MC_CMD_KR_TUNE_IN_TXEQ_GET := 2
  MC_CMD_KR_TUNE_IN_TXEQ_SET := 3
  MC_CMD_KR_TUNE_IN_RECAL := 4
  MC_CMD_KR_TUNE_IN_START_EYE_PLOT := 5
  MC_CMD_KR_TUNE_IN_POLL_EYE_PLOT := 6
  MC_CMD_KR_TUNE_RXEQ_GET_OUT_LENMAX := 252
  MC_CMD_KR_TUNE_TXEQ_GET_OUT_LENMAX := 252
  MC_CMD_KR_TUNE_POLL_EYE_PLOT_OUT_LENMAX := 252
  strerror := fun e => "error " ++ Nat.repr e

/-- A process with its three standard descriptors open and nothing printed. -/
def example_world : World := ⟨0, [0, 1, 2], [], "", ""⟩

/-- A kernel answer: `socket` returns `fd`, `ioctl` succeeds with `outlen` bytes of
`payload`. -/
def answer_ok (fd : Int) (outlen : Nat) (payload : List Nat) : Kernel :=
  ⟨fd, 0, 0, 0, 0, 0, outlen, payload⟩

/-- A kernel answer: `socket` returns `fd`, `ioctl` fails with `EIO`. -/
def answer_io_error (fd : Int) : Kernel := ⟨fd, 0, -1, 5, 0, 0, 0, []⟩

/-- A decimal digit. -/
def is_dec (c : Char) : Prop := 48 ≤ c.toNat ∧ c.toNat ≤ 57

/-- An octal digit. -/
def is_oct (c : Char) : Prop := 48 ≤ c.toNat ∧ c.toNat ≤ 55

/-- A hexadecimal digit of either case. -/
def is_hex (c : Char) : Prop :=
  (48 ≤ c.toNat ∧ c.toNat ≤ 57) ∨ (97 ≤ c.toNat ∧ c.toNat ≤ 102) ∨ (65 ≤ c.toNat ∧ c.toNat ≤ 70)

instance (c : Char) : Decidable (is_dec c) := by
  unfold is_dec
  infer_instance

instance (c : Char) : Decidable (is_oct c) := by
  unfold is_oct
  infer_instance

instance (c : Char) : Decidable (is_hex c) := by
  unfold is_hex
  infer_instance

/-- A non-empty unsigned numeral: decimal without a leading `0`, `0x`/`0X` followed by
hexadecimal digits, or `0` followed by octal digits. -/
def Numeral (ds : List Char) : Prop :=
  (ds ≠ [] ∧ ds.head? ≠ some '0' ∧ ∀ c ∈ ds, is_dec c) ∨
  (∃ hs, hs ≠ [] ∧ (ds = '0' :: 'x' :: hs ∨ ds = '0' :: 'X' :: hs) ∧ ∀ c ∈ hs, is_hex c) ∨
  (∃ os, ds = '0' :: os ∧ ∀ c ∈ os, is_oct c)

/-- The text between the `Lane<d>.` prefix and the first `=` after it. -/
def label_of (desc : List Char) : List Char := (desc.drop 6).takeWhile (fun c => c != '=')

/-- The text after the first `=` that follows the `Lane<d>.` prefix. -/
def number_of (desc : List Char) : List Char :=
  ((desc.drop 6).dropWhile (fun c => c != '=')).drop 1

/-- The text after `Lane` is not a single digit `0`..`4` followed by `.`. -/
def bad_lane (desc : List Char) : Prop :=
  desc.getD 4 '\x00' ∉ ['0', '1', '2', '3', '4'] ∨ desc.getD 5 '\x00' ≠ '.'

/-- The text between `.` and `=` is not a name of the table. -/
def bad_name (desc : List Char) (names : List String) : Prop :=
  label_of desc ∉ names.map String.toList

/-- A character remains after the number and the optional `+`. -/
def has_trailing (desc : List Char) : Prop :=
  (strip_plus (strtoul (number_of desc)).2).headD '\x00' ≠ '\x00'

instance (desc : List Char) : Decidable (bad_lane desc) := by
  unfold bad_lane
  infer_instance

instance (desc : List Char) (names : List String) : Decidable (bad_name desc names) := by
  unfold bad_name
  infer_instance

instance (desc : List Char) : Decidable (has_trailing desc) := by
  unfold has_trailing
  infer_instance

/-- The text after `=`: white space, an optional sign, a numeral, an optional `+`. -/
def NumberText (t : List Char) : Prop :=
  ∃ ws sign ds plus, t = ws ++ sign ++ ds ++ plus ∧ (∀ c ∈ ws, isspace c = true) ∧
    (sign = [] ∨ sign = ['+'] ∨ sign = ['-']) ∧ Numeral ds ∧ (plus = [] ∨ plus = ['+'])

/-- The setter form `Lane<digit>.<ParameterName>=<number>[+]` over a table of names. -/
def SetterForm (names : List String) (desc : List Char) : Prop :=
  ∃ d name num, desc = ['L', 'a', 'n', 'e'] ++ [Char.ofNat (48 + d)] ++ ['.'] ++ name.toList
      ++ ['='] ++ num ∧ d < 5 ∧ name ∈ names ∧ NumberText num

/-- The word `val = le32toh(buf[i])` of line 54. -/
def word_at (be : Bool) (buf : List Nat) (i : Nat) : Nat := le32toh be (buf.getD i 0)

theorem bswap32_bytes (b0 b1 b2 b3 : Nat) (h0 : b0 < 256) (h1 : b1 < 256) (h2 : b2 < 256)
    (h3 : b3 < 256) :
    bswap32 (b0 * 16777216 + b1 * 65536 + b2 * 256 + b3)
      = b3 * 16777216 + b2 * 65536 + b1 * 256 + b0 := by
  unfold bswap32
  omega

theorem bswap32_bswap32 (x : Nat) (hx : x < 2 ^ 32) : bswap32 (bswap32 x) = x := by
  have e : bswap32 x = (x % 256) * 16777216 + (x / 256 % 256) * 65536 + (x / 65536 % 256) * 256
      + (x / 16777216 % 256) := rfl
  rw [e, bswap32_bytes _ _ _ _ (Nat.mod_lt _ (by norm_num)) (Nat.mod_lt _ (by norm_num))
    (Nat.mod_lt _ (by norm_num)) (Nat.mod_lt _ (by norm_num))]
  have h1 : x / 256 / 256 = x / 65536 := Nat.div_div_eq_div_mul x 256 256
  have h2 : x / 65536 / 256 = x / 16777216 := Nat.div_div_eq_div_mul x 65536 256
  omega

theorem le32toh_htole32 (be : Bool) (x : Nat) (hx : x < 2 ^ 32) : le32toh be (htole32 be x) = x := by
  cases be
  · simp [le32toh, htole32]
  · simp [le32toh, htole32, bswap32_bswap32 x hx]

theorem and_255 (x : Nat) : x &&& 0xff = x % 256 := Nat.and_pow_two_sub_one_eq_mod x 8

theorem and_7 (x : Nat) : x &&& 7 = x % 8 := Nat.and_pow_two_sub_one_eq_mod x 3

theorem and_1 (x : Nat) : x &&& 1 = x % 2 := Nat.and_pow_two_sub_one_eq_mod x 1

theorem and_65535 (x : Nat) : x &&& 0xffff = x % 65536 := Nat.and_pow_two_sub_one_eq_mod x 16

theorem fields_eq (val : Nat) :
    fields val = ⟨val % 256, val / 256 % 8, val / 2048 % 2, val / 65536 % 256,
      val / 16777216 % 256⟩ := by
  simp only [fields, and_255, and_7, and_1, Nat.shiftRight_eq_div_pow]

/-- A word assembled by OR from fields that fit is the sum of the shifted fields. -/
theorem or_fields_eq_add (i d a v : Nat) (hi : i < 256) (hd : d < 8) (ha : a < 2) :
    i ||| (d <<< 8) ||| (a <<< 11) ||| (v <<< 16) = i + 256 * d + 2048 * a + 65536 * v := by
  have h1 : 2 ^ 8 * d + i = 2 ^ 8 * d ||| i := Nat.mul_add_lt_is_or (by omega) d
  have h2 : 2 ^ 11 * a + (i + 256 * d) = 2 ^ 11 * a ||| (i + 256 * d) :=
    Nat.mul_add_lt_is_or (by omega) a
  have h3 : 2 ^ 16 * v + (i + 256 * d + 2048 * a) = 2 ^ 16 * v ||| (i + 256 * d + 2048 * a) :=
    Nat.mul_add_lt_is_or (by omega) v
  simp only [Nat.shiftLeft_eq]
  rw [Nat.or_comm i, Nat.mul_comm d, ← h1, Nat.or_comm _ (a * 2 ^ 11), Nat.mul_comm a,
    show 2 ^ 8 * d + i = i + 256 * d by omega, ← h2, Nat.or_comm _ (v * 2 ^ 16), Nat.mul_comm v,
    show 2 ^ 11 * a + (i + 256 * d) = i + 256 * d + 2048 * a by omega, ← h3]
  omega

/-- The arithmetic of line 104 without bit operations. -/
theorem encode_eq (i d a val : Nat) (hi : i < 256) (hd : d < 8) (ha : a < 2) :
    (i ||| (d <<< 8) ||| (a <<< 11) ||| ((val <<< 16) % 2 ^ 32)) % 2 ^ 32
      = i + 256 * d + 2048 * a + 65536 * (val % 65536) := by
  have hv : (val <<< 16) % 2 ^ 32 = (val % 65536) <<< 16 := by
    simp only [Nat.shiftLeft_eq]
    omega
  rw [hv, or_fields_eq_add i d a _ hi hd ha]
  omega

theorem strchr_append (pre post : List Char) (c : Char) (hc : c ∉ pre) (hz : '\x00' ∉ pre) :
    strchr (pre ++ c :: post) c = some (pre, c :: post) := by
  induction pre with
  | nil => simp [strchr]
  | cons x xs ih =>
    simp only [List.mem_cons, not_or] at hc hz
    simp [strchr, Ne.symm hc.1, Ne.symm hz.1, ih hc.2 hz.2]

theorem strchr_some (s : List Char) (c : Char) :
    ∀ pre post, strchr s c = some (pre, post) →
      ∃ tail, post = c :: tail ∧ s = pre ++ c :: tail ∧ c ∉ pre ∧ '\x00' ∉ pre := by
  induction s with
  | nil => intro pre post h; simp [strchr] at h
  | cons x xs ih =>
    intro pre post h
    unfold strchr at h
    split_ifs at h with h1 h2
    · simp only [Option.some.injEq, Prod.mk.injEq] at h
      obtain ⟨rfl, rfl⟩ := h
      exact ⟨xs, by simp [h1], by simp [h1], by simp, by simp⟩
    · cases hr : strchr xs c with
      | none => simp [hr] at h
      | some pp =>
        obtain ⟨p1, p2⟩ := pp
        simp only [hr, Option.some.injEq, Prod.mk.injEq] at h
        obtain ⟨rfl, rfl⟩ := h
        obtain ⟨tail, e1, e2, e3, e4⟩ := ih p1 p2 hr
        refine ⟨tail, e1, by simp [e2], ?_, ?_⟩
        · simp only [List.mem_cons, not_or]; exact ⟨Ne.symm h1, e3⟩
        · simp only [List.mem_cons, not_or]; exact ⟨Ne.symm h2, e4⟩

/-- The function `set_param` on a text that has its `Lane<c4>.` prefix and an `=`. -/
theorem set_param_cons (be : Bool) (c4 : Char) (label tail : List Char) (names : List String)
    (cnt : Nat) (h4 : 48 ≤ c4.toNat ∧ c4.toNat ≤ 52) (hl : '=' ∉ label) (hz : '\x00' ∉ label) :
    set_param be ('L' :: 'a' :: 'n' :: 'e' :: c4 :: '.' :: (label ++ '=' :: tail)) names cnt =
      if (strip_plus (strtoul tail).2).headD '\x00' ≠ '\x00' then none
      else (find_param names cnt label).map fun i =>
        htole32 be (encode i (c4.toNat - 48) (marker (strtoul tail).2) ((strtoul tail).1 % 2 ^ 32)) := by
  have h4a : ¬ (c4.toNat < 48 ∨ c4.toNat > 52) := by omega
  simp only [set_param, List.take, List.getD_cons_succ, List.getD_cons_zero, List.drop,
    strchr_append label tail '=' hl hz, h4a, strip_plus, marker, encode]
  simp only [ne_eq, not_true_eq_false, if_false, List.drop_succ_cons, List.drop_zero]
  by_cases hp : (strtoul tail).2.headD '\x00' = '+'
  · simp only [hp, if_true, one_ne_zero, not_false_eq_true]
    split_ifs <;> first | rfl | (cases find_param names cnt label <;> rfl)
  · simp only [hp, if_false, not_true_eq_false]
    split_ifs <;> first | rfl | (cases find_param names cnt label <;> rfl)

/-- Every accepted text has the prefix `Lane<c4>.`, a label free of `=` and an `=`. -/
theorem set_param_shape (be : Bool) (desc : List Char) (names : List String) (cnt w : Nat)
    (h : set_param be desc names cnt = some w) :
    ∃ c4 label tail, desc = 'L' :: 'a' :: 'n' :: 'e' :: c4 :: '.' :: (label ++ '=' :: tail) ∧
      (48 ≤ c4.toNat ∧ c4.toNat ≤ 52) ∧ '=' ∉ label ∧ '\x00' ∉ label := by
  unfold set_param at h
  split_ifs at h with h1 h2 h3
  rcases desc with _ | ⟨a, _ | ⟨b, _ | ⟨c, _ | ⟨d, _ | ⟨c4, _ | ⟨c5, rest⟩⟩⟩⟩⟩⟩
  · simp at h1
  · simp at h1
  · simp at h1
  · simp at h1
  · simp at h2
  · simp at h3
  · simp only [List.take, ne_eq, not_not, List.cons.injEq, and_true] at h1
    obtain ⟨rfl, rfl, rfl, rfl⟩ := h1
    simp only [List.getD_cons_succ, List.getD_cons_zero, ne_eq, not_not] at h2 h3
    subst h3
    simp only [List.drop_succ_cons, List.drop_zero] at h
    cases hs : strchr rest '=' with
    | none => simp [hs] at h
    | some pp =>
      obtain ⟨label, post⟩ := pp
      obtain ⟨tail, -, e2, e3, e4⟩ := strchr_some rest '=' label post hs
      exact ⟨c4, label, tail, by rw [e2], by omega, e3, e4⟩

set_option maxRecDepth 100000 in
theorem strtoul_decimal_byte : ∀ v, v < 256 → ∀ a : Bool,
    strtoul (Nat.toDigits 10 v ++ (if a then ['+'] else [])) = (v, if a then ['+'] else []) := by
  decide

theorem lane_digit : ∀ d, d < 5 →
    Nat.toDigits 10 d = [Char.ofNat (48 + d)] ∧ (Char.ofNat (48 + d)).toNat = 48 + d := by
  decide

theorem rxeq_param_names : ∀ i, i < rxeq_param.length →
    '=' ∉ (rxeq_param.getD i "").toList ∧ '\x00' ∉ (rxeq_param.getD i "").toList ∧
      find_param rxeq_param rxeq_param.length (rxeq_param.getD i "").toList = some i := by
  decide

theorem txeq_param_names : ∀ i, i < txeq_param.length →
    '=' ∉ (txeq_param.getD i "").toList ∧ '\x00' ∉ (txeq_param.getD i "").toList ∧
      find_param txeq_param txeq_param.length (txeq_param.getD i "").toList = some i := by
  decide

theorem table_names (names : List String) (hn : names = rxeq_param ∨ names = txeq_param) (i : Nat)
    (hi : i < names.length) :
    '=' ∉ (names.getD i "").toList ∧ '\x00' ∉ (names.getD i "").toList ∧
      find_param names names.length (names.getD i "").toList = some i ∧ i < 256 := by
  rcases hn with rfl | rfl
  · have := rxeq_param_names i hi
    have h8 : rxeq_param.length = 8 := rfl
    exact ⟨this.1, this.2.1, this.2.2, by omega⟩
  · have := txeq_param_names i hi
    have h10 : txeq_param.length = 10 := rfl
    exact ⟨this.1, this.2.1, this.2.2, by omega⟩

/-- The function `set_param` on a decimal setter text of a table. -/
theorem set_param_setter_text (be : Bool) (names : List String)
    (hn : names = rxeq_param ∨ names = txeq_param) (d i v : Nat) (a : Bool) (hd : d < 5)
    (hi : i < names.length) (hv : v < 256) :
    set_param be (setter_text d (names.getD i "") v a) names names.length
      = some (htole32 be (i + 256 * d + 2048 * (if a then 1 else 0) + 65536 * v)) := by
  obtain ⟨hc, hcn⟩ := lane_digit d hd
  obtain ⟨t1, t2, t3, t4⟩ := table_names names hn i hi
  have hs := strtoul_decimal_byte v hv a
  have htxt : setter_text d (names.getD i "") v a
      = 'L' :: 'a' :: 'n' :: 'e' :: Char.ofNat (48 + d) :: '.' ::
          ((names.getD i "").toList ++ '=' :: (Nat.toDigits 10 v ++ (if a then ['+'] else []))) := by
    simp [setter_text, hc]
  have hstrip : (strip_plus (if a then ['+'] else [])).headD '\x00' = '\x00' := by
    cases a <;> decide
  have hmark : marker (if a then ['+'] else []) = if a then 1 else 0 := by
    cases a <;> rfl
  have ha : (if a then 1 else 0) < 2 := by cases a <;> decide
  have hv32 : v % 2 ^ 32 = v := Nat.mod_eq_of_lt (by omega)
  have hv16 : v % 65536 = v := Nat.mod_eq_of_lt (by omega)
  rw [htxt, set_param_cons be _ _ _ names names.length ⟨by omega, by omega⟩ t1 t2, hs, t3]
  simp only [hstrip, hmark, ne_eq, not_true_eq_false, if_false, Option.map_some', hcn, hv32]
  rw [encode, encode_eq i (48 + d - 48) _ v t4 (by omega) ha, hv16]
  congr 3
  omega

theorem wire_word_eq (i d : Nat) (a : Bool) (v : Nat) (hi : i < 256) (hd : d < 8) :
    wire_word i d a v = i + 256 * d + 2048 * (if a then 1 else 0) + 65536 * v := by
  unfold wire_word
  exact or_fields_eq_add i d _ v hi hd (by cases a <;> decide)

theorem fields_sum (i d a v : Nat) (hi : i < 256) (hd : d < 8) (ha : a < 2) (hv : v < 256) :
    fields (i + 256 * d + 2048 * a + 65536 * v) = ⟨i, d, a, v, 0⟩ := by
  rw [fields_eq]
  simp only [Fields.mk.injEq]
  omega

/-- Decoding, by one iteration of `show_param`, of the word stored for fields that fit. -/
theorem show_entry_htole32 (be : Bool) (names : List String) (i d v : Nat) (a : Bool)
    (hi : i < names.length) (hi8 : i < 256) (hd : d < 8) (hv : v < 256) :
    show_entry be names names.length
        (htole32 be (i + 256 * d + 2048 * (if a then 1 else 0) + 65536 * v))
      = if a then .tracked d (names.getD i "") 0 v else .fixed d (names.getD i "") v := by
  have ha : (if a then 1 else 0) < 2 := by cases a <;> decide
  rw [show_entry, le32toh_htole32 be _ (by omega), fields_sum i d _ v hi8 hd ha hv, report]
  cases a <;> simp [Nat.not_le.mpr hi]

/-- A line that names a parameter starts with `Lane`, so only the first `printf`
writes a line starting with `unknown parameter`. -/
theorem render_unknown (r : Report) (t : String) (h : r.render = "unknown parameter " ++ t) :
    ∃ q, r = .unknown q := by
  cases r with
  | unknown q => exact ⟨q, rfl⟩
  | tracked l s c i =>
    have h1 := congrArg String.data h
    simp [Report.render, String.data_append] at h1
  | fixed l s i =>
    have h1 := congrArg String.data h
    simp [Report.render, String.data_append] at h1

theorem show_entry_unknown_iff (be : Bool) (names : List String) (cnt w : Nat) :
    (show_entry be names cnt w).render = "unknown parameter " ++ Nat.repr (le32toh be w % 256) ++ "\n"
      ↔ cnt ≤ le32toh be w % 256 := by
  constructor
  · intro h
    rw [String.append_assoc] at h
    obtain ⟨q, hq⟩ := render_unknown _ _ h
    by_contra hlt
    rw [show_entry, fields_eq, report] at hq
    simp only [ge_iff_le, hlt, if_false] at hq
    split_ifs at hq
  · intro h
    rw [show_entry, fields_eq, report]
    simp only [ge_iff_le, h, if_true, Report.render]

theorem local_array_length (n : Nat) (junk : List Nat) : (local_array n junk).length = n := by
  simp [local_array]

theorem memcpy_words_length (be : Bool) (outbuf payload : List Nat) (n : Nat) :
    (memcpy_words be outbuf payload n).length = outbuf.length := by
  simp [memcpy_words]

theorem memcpy_words_getD (be : Bool) (outbuf payload : List Nat) (n i : Nat) (hi : i < n / 4)
    (hn : n ≤ 4 * outbuf.length) : (memcpy_words be outbuf payload n).getD i 0 = payload.getD i 0 := by
  have hlt : i < outbuf.length := by omega
  unfold memcpy_words
  simp [List.getD_eq_getElem?_getD, List.getElem?_map, List.getElem?_range hlt, hi]

theorem efx_mcdi_rpc_ok (h : Headers) (be : Bool) (k : Kernel) (w : World) (cmd : Nat)
    (inbuf : List Nat) (inlen : Nat) (outbuf : List Nat) (outlen oa : Nat)
    (hk : ¬ rpc_fails h k inlen outlen) (hle : k.outlen ≤ outlen)
    (hcap : outlen ≤ 4 * outbuf.length) :
    efx_mcdi_rpc h be k w cmd inbuf inlen outbuf outlen oa =
      some ⟨0, memcpy_words be outbuf k.payload k.outlen, k.outlen,
        { w with
          open_fds := k.socket_rc :: w.open_fds
          trace := w.trace ++ [Syscall.socket] ++
            [Syscall.ioctl k.socket_rc cmd inlen outlen (inbuf.take (inlen / 4))] }⟩ := by
  simp only [rpc_fails, not_or, not_not] at hk
  obtain ⟨h1, h2, h3, h4, h5⟩ := hk
  have h6 : ¬ (k.outlen > h.sizeof_efx - h.payload_offset ∨ k.outlen > 4 * outbuf.length) := by
    omega
  simp [efx_mcdi_rpc, h1, h2, h3, h4, h5, h6]

theorem efx_mcdi_rpc_fail (h : Headers) (be : Bool) (k : Kernel) (w : World) (cmd : Nat)
    (inbuf : List Nat) (inlen : Nat) (outbuf : List Nat) (outlen oa : Nat)
    (hk : rpc_fails h k inlen outlen) :
    ∃ r, efx_mcdi_rpc h be k w cmd inbuf inlen outbuf outlen oa = some r ∧ r.rc = -1 ∧
      r.world.stdout = w.stdout := by
  by_cases g1 : inlen > h.sizeof_efx - h.payload_offset ∨ outlen > h.sizeof_efx - h.payload_offset
  · simp only [efx_mcdi_rpc, g1, if_true]
    exact ⟨_, rfl, rfl, rfl⟩
  · by_cases g2 : k.socket_rc = -1
    · simp only [efx_mcdi_rpc, g1, g2, if_false, if_true]
      exact ⟨_, rfl, rfl, rfl⟩
    · by_cases g3 : k.ioctl_rc = 0
      · by_cases g4 : k.flags &&& h.EFX_MCDI_REQUEST_ERROR = 0
        · exfalso
          simp only [rpc_fails] at hk
          rcases hk with hk | hk | hk | hk | hk
          · exact g1 (Or.inl hk)
          · exact g1 (Or.inr hk)
          · exact g2 hk
          · exact hk g3
          · exact hk g4
        · simp only [efx_mcdi_rpc, g1, g2, g3, g4, if_false, if_true, ne_eq, not_true_eq_false,
            not_false_eq_true]
          exact ⟨_, rfl, rfl, rfl⟩
      · simp only [efx_mcdi_rpc, g1, g2, g3, if_false, if_true, ne_eq, not_false_eq_true]
        exact ⟨_, rfl, rfl, rfl⟩

theorem eye_batch_memcpy (be : Bool) (outbuf : List Nat) (k : Kernel)
    (hn : k.outlen ≤ 4 * outbuf.length) :
    eye_batch (memcpy_words be outbuf k.payload k.outlen) k.outlen = pairs_line (host_pairs k) := by
  unfold eye_batch pairs_line host_pairs
  rw [List.map_map]
  congr 2
  apply List.map_congr_left
  intro i hi
  rw [List.mem_range] at hi
  simp only [Function.comp, memcpy_words_getD be outbuf k.payload k.outlen i hi hn, and_65535,
    Nat.shiftRight_eq_div_pow]

theorem foldl_append_acc (l : List String) (acc : String) :
    List.foldl (fun r s => r ++ s) acc l = acc ++ List.foldl (fun r s => r ++ s) "" l := by
  induction l generalizing acc with
  | nil => simp
  | cons x xs ih =>
    rw [List.foldl_cons, List.foldl_cons, ih (acc ++ x), ih ("" ++ x), String.empty_append,
      String.append_assoc]

theorem join_cons (x : String) (xs : List String) : String.join (x :: xs) = x ++ String.join xs := by
  unfold String.join
  rw [List.foldl_cons, foldl_append_acc, String.empty_append]

theorem eye_loop_run (h : Headers) (be : Bool) (lw : Nat) (pre : List Kernel) (t : Kernel)
    (post : List Kernel)
    (hpre : ∀ p ∈ pre, ¬ poll_failed h p ∧ p.outlen ≠ 0 ∧
      p.outlen ≤ sizeof_outbuf h.MC_CMD_KR_TUNE_POLL_EYE_PLOT_OUT_LENMAX)
    (ht : poll_failed h t ∨ t.outlen = 0) :
    ∀ (outbuf : List Nat) (w : World),
      outbuf.length = h.MC_CMD_KR_TUNE_POLL_EYE_PLOT_OUT_LENMAX / 4 →
      ∃ w', eye_loop h be lw (pre ++ t :: post) outbuf w
          = .returned (if poll_failed h t then 1 else 0, w', post) ∧
        w'.stdout = w.stdout ++ String.join (pre.map fun p => pairs_line (host_pairs p)) := by
  induction pre with
  | nil =>
    intro outbuf w hlen
    have hcap : sizeof_outbuf h.MC_CMD_KR_TUNE_POLL_EYE_PLOT_OUT_LENMAX ≤ 4 * outbuf.length := by
      rw [hlen, sizeof_outbuf]; omega
    simp only [List.nil_append, eye_loop, List.map_nil, String.join, List.foldl_nil,
      String.append_empty]
    by_cases hf : poll_failed h t
    · obtain ⟨r, hr, hrc, hout⟩ := efx_mcdi_rpc_fail h be t w h.MC_CMD_KR_TUNE
        [htole32 be h.MC_CMD_KR_TUNE_IN_POLL_EYE_PLOT, lw] 4 outbuf
        (sizeof_outbuf h.MC_CMD_KR_TUNE_POLL_EYE_PLOT_OUT_LENMAX) 0 hf
      simp only [hr, hrc, hf, if_true]
      exact ⟨_, rfl, hout⟩
    · have h0 : t.outlen = 0 := by tauto
      have hr := efx_mcdi_rpc_ok h be t w h.MC_CMD_KR_TUNE
        [htole32 be h.MC_CMD_KR_TUNE_IN_POLL_EYE_PLOT, lw] 4 outbuf
        (sizeof_outbuf h.MC_CMD_KR_TUNE_POLL_EYE_PLOT_OUT_LENMAX) 0 hf (by omega) hcap
      simp only [hr, hf, if_false, h0]
      exact ⟨_, rfl, rfl⟩
  | cons p ps ih =>
    intro outbuf w hlen
    have hcap : sizeof_outbuf h.MC_CMD_KR_TUNE_POLL_EYE_PLOT_OUT_LENMAX ≤ 4 * outbuf.length := by
      rw [hlen, sizeof_outbuf]; omega
    have hp := hpre p (List.mem_cons_self _ _)
    have hr := efx_mcdi_rpc_ok h be p w h.MC_CMD_KR_TUNE
      [htole32 be h.MC_CMD_KR_TUNE_IN_POLL_EYE_PLOT, lw] 4 outbuf
      (sizeof_outbuf h.MC_CMD_KR_TUNE_POLL_EYE_PLOT_OUT_LENMAX) 0 hp.1 hp.2.2 hcap
    obtain ⟨w', e1, e2⟩ := ih (fun q hq => hpre q (List.mem_cons_of_mem _ hq))
      (memcpy_words be outbuf p.payload p.outlen)
      (printf { w with
          open_fds := p.socket_rc :: w.open_fds
          trace := w.trace ++ [Syscall.socket] ++
            [Syscall.ioctl p.socket_rc h.MC_CMD_KR_TUNE 4
              (sizeof_outbuf h.MC_CMD_KR_TUNE_POLL_EYE_PLOT_OUT_LENMAX)
              ([htole32 be h.MC_CMD_KR_TUNE_IN_POLL_EYE_PLOT, lw].take (4 / 4))] }
        (eye_batch (memcpy_words be outbuf p.payload p.outlen) p.outlen))
      (by rw [memcpy_words_length, hlen])
    refine ⟨w', ?_, ?_⟩
    · simp only [List.cons_append, eye_loop, hr, hp.2.1, if_false, ne_eq, not_true_eq_false]
      exact e1
    · rw [e2]
      simp only [printf, eye_batch_memcpy be outbuf p (le_trans hp.2.2 hcap), List.map_cons,
        join_cons, String.append_assoc]

theorem host_pairs_length (k : Kernel) : (host_pairs k).length = k.outlen / 4 := by
  simp [host_pairs]

theorem wire_pairs_little_endian (k : Kernel) : wire_pairs false k = host_pairs k := by
  simp [wire_pairs, host_pairs, le32toh]

/-- After a successful lane query and start request, if the polls answered by `pre` all
succeed with a non-empty response that fits `outbuf`, and the next poll `t` fails or is
empty, then `efx_get_eye` returns, prints exactly one line per poll of `pre`, in order,
returns 0 when `t` is an empty response and 1 when `t` is a failed poll, and asks for no
poll after `t`. Each line holds the halves of the words as the host reads them. -/
theorem efx_get_eye_run (h : Headers) (be : Bool) (kq ks : Kernel) (pre : List Kernel)
    (t : Kernel) (post : List Kernel) (junk1 junk2 : List Nat) (w : World)
    (hq : ¬ rpc_fails h kq 4 (sizeof_outbuf h.MC_CMD_KR_TUNE_RXEQ_GET_OUT_LENMAX))
    (hqlen : kq.outlen ≤ sizeof_outbuf h.MC_CMD_KR_TUNE_RXEQ_GET_OUT_LENMAX)
    (hq0 : 0 < h.MC_CMD_KR_TUNE_RXEQ_GET_OUT_LENMAX / 4)
    (hs : ¬ rpc_fails h ks 8 0) (hslen : ks.outlen = 0)
    (hpre : ∀ p ∈ pre, ¬ poll_failed h p ∧ p.outlen ≠ 0 ∧
      p.outlen ≤ sizeof_outbuf h.MC_CMD_KR_TUNE_POLL_EYE_PLOT_OUT_LENMAX)
    (ht : poll_failed h t ∨ t.outlen = 0) :
    ∃ w', efx_get_eye h be kq ks (pre ++ t :: post) junk1 junk2 w
        = .returned (if poll_failed h t then 1 else 0, w', post) ∧
      w'.stdout = w.stdout ++ String.join (pre.map fun p => pairs_line (host_pairs p)) := by
  have hcap1 : sizeof_outbuf h.MC_CMD_KR_TUNE_RXEQ_GET_OUT_LENMAX
      ≤ 4 * (local_array (h.MC_CMD_KR_TUNE_RXEQ_GET_OUT_LENMAX / 4) junk1).length := by
    rw [local_array_length, sizeof_outbuf]; omega
  have hr1 := efx_mcdi_rpc_ok h be kq w h.MC_CMD_KR_TUNE
    [htole32 be h.MC_CMD_KR_TUNE_IN_RXEQ_GET] 4
    (local_array (h.MC_CMD_KR_TUNE_RXEQ_GET_OUT_LENMAX / 4) junk1)
    (sizeof_outbuf h.MC_CMD_KR_TUNE_RXEQ_GET_OUT_LENMAX) 0 hq hqlen hcap1
  have hl0 : (memcpy_words be (local_array (h.MC_CMD_KR_TUNE_RXEQ_GET_OUT_LENMAX / 4) junk1)
      kq.payload kq.outlen).length ≠ 0 := by
    rw [memcpy_words_length, local_array_length]; omega
  simp only [efx_get_eye, efx_get_lane, hr1, ne_eq, not_true_eq_false, if_false, hl0]
  rw [efx_mcdi_rpc_ok h be ks _ h.MC_CMD_KR_TUNE _ 8 [] 0 0 hs (by omega) (by simp)]
  simp only [ne_eq, not_true_eq_false, if_false]
  exact eye_loop_run h be _ pre t post hpre ht _ _ (local_array_length _ _)

theorem efx_mcdi_rpc_ok_open_fds (h : Headers) (be : Bool) (k : Kernel) (w : World) (cmd : Nat)
    (inbuf : List Nat) (inlen : Nat) (outbuf : List Nat) (outlen oa : Nat)
    (hk : ¬ rpc_fails h k inlen outlen) (hle : k.outlen ≤ outlen)
    (hcap : outlen ≤ 4 * outbuf.length) :
    (efx_mcdi_rpc h be k w cmd inbuf inlen outbuf outlen oa).map
        (fun r => (r.rc, r.world.open_fds)) = some (0, k.socket_rc :: w.open_fds) := by
  rw [efx_mcdi_rpc_ok h be k w cmd inbuf inlen outbuf outlen oa hk hle hcap]
  rfl

theorem scan_digits_spec (base : Nat) : ∀ (s : List Char) (n acc : Nat),
    ∃ taken, s = taken ++ (scan_digits base s n acc).2.2 ∧
      (scan_digits base s n acc).1 = n + taken.length ∧
      ∀ c ∈ taken, ∃ d, digit_val c = some d ∧ d < base := by
  intro s
  induction s with
  | nil => intro n acc; exact ⟨[], by simp [scan_digits]⟩
  | cons c cs ih =>
    intro n acc
    cases hd : digit_val c with
    | none => exact ⟨[], by simp [scan_digits, hd]⟩
    | some d =>
      by_cases hb : d < base
      · obtain ⟨taken, e1, e2, e3⟩ := ih (n + 1) (acc * base + d)
        refine ⟨c :: taken, ?_, ?_, ?_⟩
        · simp only [scan_digits, hd, hb, if_true, List.cons_append]
          rw [← e1]
        · simp only [scan_digits, hd, hb, if_true, e2, List.length_cons]
          omega
        · intro x hx
          rcases List.mem_cons.mp hx with rfl | hx
          · exact ⟨d, hd, hb⟩
          · exact e3 x hx
      · exact ⟨[], by simp [scan_digits, hd, hb]⟩

theorem digit_val_dec (c : Char) (d : Nat) (h : digit_val c = some d) (hd : d < 10) : is_dec c := by
  unfold digit_val at h
  unfold is_dec
  split_ifs at h with h1 h2 h3
  · exact h1
  · simp only [Option.some.injEq] at h; omega
  · simp only [Option.some.injEq] at h; omega

theorem digit_val_oct (c : Char) (d : Nat) (h : digit_val c = some d) (hd : d < 8) : is_oct c := by
  unfold digit_val at h
  unfold is_oct
  split_ifs at h with h1 h2 h3
  · simp only [Option.some.injEq] at h; omega
  · simp only [Option.some.injEq] at h; omega
  · simp only [Option.some.injEq] at h; omega

theorem digit_val_hex (c : Char) (d : Nat) (h : digit_val c = some d) (hd : d < 16) : is_hex c := by
  unfold digit_val at h
  unfold is_hex
  split_ifs at h with h1 h2 h3
  · exact Or.inl h1
  · simp only [Option.some.injEq] at h; right; left; omega
  · simp only [Option.some.injEq] at h; right; right; omega

/-- The digit part of `strtoul`, after white space and sign: with `s1` the text at the
digits, either nothing is converted, or a numeral is read off the front of `s1`. -/
theorem strtoul_core (s1 : List Char) (r : Nat × Nat × List Char)
    (hr : r = scan_digits
      (if s1.headD '\x00' = '0' ∧
          ((s1.drop 1).headD '\x00' = 'x' ∨ (s1.drop 1).headD '\x00' = 'X') then 16
        else if s1.headD '\x00' = '0' then 8 else 10)
      (if s1.headD '\x00' = '0' ∧
          ((s1.drop 1).headD '\x00' = 'x' ∨ (s1.drop 1).headD '\x00' = 'X') then s1.drop 2
        else s1) 0 0) :
    (r.1 = 0 ∧ ¬ (s1.headD '\x00' = '0' ∧
        ((s1.drop 1).headD '\x00' = 'x' ∨ (s1.drop 1).headD '\x00' = 'X'))) ∨
      ∃ ds, Numeral ds ∧ s1 = ds ++ (if r.1 = 0 then s1.drop 1 else r.2.2) := by
  by_cases hx : s1.headD '\x00' = '0' ∧
      ((s1.drop 1).headD '\x00' = 'x' ∨ (s1.drop 1).headD '\x00' = 'X')
  · right
    rw [if_pos hx, if_pos hx] at hr
    obtain ⟨taken, e1, e2, e3⟩ := scan_digits_spec 16 (s1.drop 2) 0 0
    rw [← hr] at e1 e2
    obtain ⟨h0, h1⟩ := hx
    rcases s1 with _ | ⟨a, _ | ⟨b, rest⟩⟩
    · simp at h0
    · simp at h1
    · simp only [List.headD_cons, List.drop_succ_cons, List.drop_zero] at h0 h1 e1
      subst h0
      by_cases hn : r.1 = 0
      · refine ⟨['0'], Or.inr (Or.inr ⟨[], rfl, by simp⟩), ?_⟩
        simp [hn]
      · refine ⟨'0' :: b :: taken, Or.inr (Or.inl ⟨taken, ?_, ?_, ?_⟩), ?_⟩
        · intro ht
          apply hn
          rw [e2, ht]
          rfl
        · rcases h1 with rfl | rfl
          · exact Or.inl rfl
          · exact Or.inr rfl
        · intro c hc
          obtain ⟨d, hd1, hd2⟩ := e3 c hc
          exact digit_val_hex c d hd1 hd2
        · simp only [hn, if_false, List.cons_append, List.cons.injEq, true_and]
          exact e1
  · rw [if_neg hx, if_neg hx] at hr
    by_cases hn : r.1 = 0
    · exact Or.inl ⟨hn, hx⟩
    · right
      by_cases hz : s1.headD '\x00' = '0'
      · rw [if_pos hz] at hr
        obtain ⟨taken, e1, e2, e3⟩ := scan_digits_spec 8 s1 0 0
        rw [← hr] at e1 e2
        rcases taken with _ | ⟨t0, ts⟩
        · exact absurd (by rw [e2]; rfl) hn
        · have ht0 : t0 = '0' := by
            rw [e1] at hz
            simpa using hz
          subst ht0
          refine ⟨'0' :: ts, Or.inr (Or.inr ⟨ts, rfl, ?_⟩), ?_⟩
          · intro c hc
            obtain ⟨d, hd1, hd2⟩ := e3 c (List.mem_cons_of_mem _ hc)
            exact digit_val_oct c d hd1 hd2
          · simp only [hn, if_false]
            exact e1
      · rw [if_neg hz] at hr
        obtain ⟨taken, e1, e2, e3⟩ := scan_digits_spec 10 s1 0 0
        rw [← hr] at e1 e2
        rcases taken with _ | ⟨t0, ts⟩
        · exact absurd (by rw [e2]; rfl) hn
        · refine ⟨t0 :: ts, Or.inl ⟨by simp, ?_, ?_⟩, ?_⟩
          · rw [e1] at hz
            simp only [List.cons_append, List.headD_cons] at hz
            simpa using hz
          · intro c hc
            obtain ⟨d, hd1, hd2⟩ := e3 c hc
            exact digit_val_dec c d hd1 hd2
          · simp only [hn, if_false]
            exact e1

/-- The function `strtoul` with its intermediate values named. -/
theorem strtoul_eq (s s1 : List Char) (r : Nat × Nat × List Char)
    (hs1 : s1 = if (s.dropWhile isspace).headD '\x00' = '-' ∨
        (s.dropWhile isspace).headD '\x00' = '+' then (s.dropWhile isspace).drop 1
      else s.dropWhile isspace)
    (hr : r = scan_digits
      (if s1.headD '\x00' = '0' ∧
          ((s1.drop 1).headD '\x00' = 'x' ∨ (s1.drop 1).headD '\x00' = 'X') then 16
        else if s1.headD '\x00' = '0' then 8 else 10)
      (if s1.headD '\x00' = '0' ∧
          ((s1.drop 1).headD '\x00' = 'x' ∨ (s1.drop 1).headD '\x00' = 'X') then s1.drop 2
        else s1) 0 0) :
    strtoul s =
      if r.1 = 0 then
        if s1.headD '\x00' = '0' ∧
            ((s1.drop 1).headD '\x00' = 'x' ∨ (s1.drop 1).headD '\x00' = 'X') then (0, s1.drop 1)
        else (0, s)
      else if r.2.1 > ULONG_MAX then (ULONG_MAX, r.2.2)
      else if (s.dropWhile isspace).headD '\x00' = '-' then ((2 ^ 64 - r.2.1) % 2 ^ 64, r.2.2)
      else (r.2.1, r.2.2) := by
  subst hs1 hr
  rfl

/-- What `strtoul` reads: either nothing is converted (value 0, `end` at the start), or
the text is white space, an optional sign and a numeral, followed by the text at `end`. -/
theorem strtoul_shape (s : List Char) :
    strtoul s = (0, s) ∨
      ∃ ws sign ds, s = ws ++ sign ++ ds ++ (strtoul s).2 ∧ (∀ c ∈ ws, isspace c = true) ∧
        (sign = [] ∨ sign = ['+'] ∨ sign = ['-']) ∧ Numeral ds := by
  obtain ⟨s1, hs1⟩ : ∃ s1, s1 = if (s.dropWhile isspace).headD '\x00' = '-' ∨
        (s.dropWhile isspace).headD '\x00' = '+' then (s.dropWhile isspace).drop 1
      else s.dropWhile isspace := ⟨_, rfl⟩
  obtain ⟨r, hr⟩ : ∃ r, r = scan_digits
      (if s1.headD '\x00' = '0' ∧
          ((s1.drop 1).headD '\x00' = 'x' ∨ (s1.drop 1).headD '\x00' = 'X') then 16
        else if s1.headD '\x00' = '0' then 8 else 10)
      (if s1.headD '\x00' = '0' ∧
          ((s1.drop 1).headD '\x00' = 'x' ∨ (s1.drop 1).headD '\x00' = 'X') then s1.drop 2
        else s1) 0 0 := ⟨_, rfl⟩
  have he := strtoul_eq s s1 r hs1 hr
  have hsign : ∃ sign, (sign = [] ∨ sign = ['+'] ∨ sign = ['-']) ∧
      s.dropWhile isspace = sign ++ s1 := by
    by_cases hsg : (s.dropWhile isspace).headD '\x00' = '-' ∨
        (s.dropWhile isspace).headD '\x00' = '+'
    · rw [if_pos hsg] at hs1
      rcases hd : s.dropWhile isspace with _ | ⟨c, cs⟩
      · rw [hd] at hsg; simp at hsg
      · rw [hd] at hsg hs1
        simp only [List.headD_cons, List.drop_succ_cons, List.drop_zero] at hsg hs1
        subst hs1
        rcases hsg with rfl | rfl
        · exact ⟨['-'], Or.inr (Or.inr rfl), rfl⟩
        · exact ⟨['+'], Or.inr (Or.inl rfl), rfl⟩
    · rw [if_neg hsg] at hs1
      exact ⟨[], Or.inl rfl, by rw [hs1]; rfl⟩
  obtain ⟨sign, hsg, hs0⟩ := hsign
  have hws : s = s.takeWhile isspace ++ sign ++ s1 := by
    rw [List.append_assoc, ← hs0, List.takeWhile_append_dropWhile]
  rcases strtoul_core s1 r hr with ⟨hn, hx⟩ | ⟨ds, hnum, hds⟩
  · left
    rw [he, if_pos hn, if_neg hx]
  · by_cases hn : r.1 = 0
    · by_cases hx : s1.headD '\x00' = '0' ∧
          ((s1.drop 1).headD '\x00' = 'x' ∨ (s1.drop 1).headD '\x00' = 'X')
      · right
        refine ⟨s.takeWhile isspace, sign, ds, ?_, fun c hc => (List.mem_takeWhile_imp hc), hsg, hnum⟩
        rw [he, if_pos hn, if_pos hx]
        rw [if_pos hn] at hds
        simp only []
        rw [List.append_assoc _ ds, ← hds]
        exact hws
      · left
        rw [he, if_pos hn, if_neg hx]
    · right
      refine ⟨s.takeWhile isspace, sign, ds, ?_, fun c hc => (List.mem_takeWhile_imp hc), hsg, hnum⟩
      rw [if_neg hn] at hds
      have h2 : (strtoul s).2 = r.2.2 := by
        rw [he, if_neg hn]
        split_ifs <;> rfl
      rw [h2, List.append_assoc _ ds, ← hds]
      exact hws

theorem takeWhile_ne_append (label tail : List Char) (hl : '=' ∉ label) :
    (label ++ '=' :: tail).takeWhile (fun c => c != '=') = label ∧
      (label ++ '=' :: tail).dropWhile (fun c => c != '=') = '=' :: tail := by
  induction label with
  | nil => simp
  | cons x xs ih =>
    simp only [List.mem_cons, not_or] at hl
    have hx : x ≠ '=' := Ne.symm hl.1
    have h := ih hl.2
    simp only [List.cons_append, List.takeWhile_cons, List.dropWhile_cons, bne_iff_ne, ne_eq, hx,
      not_false_eq_true, decide_True, if_true, h.1, h.2, and_self]

theorem label_number_of (c4 : Char) (label tail : List Char) (hl : '=' ∉ label) :
    label_of ('L' :: 'a' :: 'n' :: 'e' :: c4 :: '.' :: (label ++ '=' :: tail)) = label ∧
      number_of ('L' :: 'a' :: 'n' :: 'e' :: c4 :: '.' :: (label ++ '=' :: tail)) = tail := by
  have h := takeWhile_ne_append label tail hl
  simp only [label_of, number_of, List.drop_succ_cons, List.drop_zero, h.1, h.2, and_self]

theorem find_param_some (names : List String) (label : List Char) (i : Nat)
    (h : find_param names names.length label = some i) :
    i < names.length ∧ (names.getD i "").toList = label ∧ label ∈ names.map String.toList := by
  unfold find_param at h
  have h1 := List.find?_some h
  have h2 := List.mem_of_find?_eq_some h
  rw [List.mem_range] at h2
  simp only [decide_eq_true_eq] at h1
  refine ⟨h2, h1, ?_⟩
  rw [List.mem_map]
  refine ⟨names.getD i "", ?_, h1⟩
  rw [List.getD_eq_getElem _ _ h2]
  exact List.getElem_mem _

/-- The full decomposition of an accepted text. -/
theorem set_param_accepts (be : Bool) (desc : List Char) (names : List String) (w : Nat)
    (h : set_param be desc names names.length = some w) :
    ∃ c4 i, desc = 'L' :: 'a' :: 'n' :: 'e' :: c4 :: '.' :: (label_of desc ++ '=' :: number_of desc) ∧
      (48 ≤ c4.toNat ∧ c4.toNat ≤ 52) ∧ desc.getD 4 '\x00' = c4 ∧
      '=' ∉ label_of desc ∧ '\x00' ∉ label_of desc ∧
      (strip_plus (strtoul (number_of desc)).2).headD '\x00' = '\x00' ∧
      find_param names names.length (label_of desc) = some i ∧
      w = htole32 be (encode i (c4.toNat - 48) (marker (strtoul (number_of desc)).2)
        ((strtoul (number_of desc)).1 % 2 ^ 32)) := by
  obtain ⟨c4, label, tail, hd, h4, hl, hz⟩ := set_param_shape be desc names names.length w h
  have hln := label_number_of c4 label tail hl
  rw [← hd] at hln
  rw [hln.1, hln.2]
  rw [hd, set_param_cons be c4 label tail names names.length h4 hl hz] at h
  split_ifs at h with h5
  cases hf : find_param names names.length label with
  | none => simp [hf] at h
  | some i =>
    simp only [hf, Option.map_some', Option.some.injEq] at h
    refine ⟨c4, i, hd, h4, by rw [hd]; rfl, hl, hz, by simpa using h5, rfl, h.symm⟩

theorem strip_plus_end (r : List Char) (hz : '\x00' ∉ r)
    (h : (strip_plus r).headD '\x00' = '\x00') : r = [] ∨ r = ['+'] := by
  unfold strip_plus at h
  rcases r with _ | ⟨c, cs⟩
  · exact Or.inl rfl
  · simp only [List.mem_cons, not_or] at hz
    right
    by_cases hc : c = '+'
    · simp only [List.headD_cons, hc, if_true, List.drop_succ_cons, List.drop_zero] at h
      rcases cs with _ | ⟨c2, cs2⟩
      · rw [hc]
      · simp only [List.headD_cons] at h
        exact absurd (h ▸ List.mem_cons_self c2 cs2) hz.2
    · simp only [List.headD_cons, hc, if_false] at h
      exact absurd h.symm hz.1

theorem show_param_single (be : Bool) (w : Nat) (names : List String) (cnt : Nat) :
    show_param be [w] 4 names cnt = [show_entry be names cnt w] := by
  simp [show_param, List.range_succ]

theorem show_param_getElem? (be : Bool) (buf : List Nat) (len : Nat) (names : List String)
    (cnt i : Nat) (hi : i < len / 4) :
    (show_param be buf len names cnt)[i]? = some (show_entry be names cnt (buf.getD i 0)) := by
  simp [show_param, List.getElem?_map, List.getElem?_range hi]

theorem show_entry_render (be : Bool) (names : List String) (cnt w : Nat)
    (hord : le32toh be w % 256 < cnt) :
    (show_entry be names cnt w).render =
      (if le32toh be w / 2048 % 2 = 1 then
        "Lane" ++ Nat.repr (le32toh be w / 256 % 8) ++ "." ++ names.getD (le32toh be w % 256) ""
          ++ "=" ++ Nat.repr (le32toh be w / 16777216 % 256)
          ++ " (initial=" ++ Nat.repr (le32toh be w / 65536 % 256) ++ ")\n"
      else
        "Lane" ++ Nat.repr (le32toh be w / 256 % 8) ++ "." ++ names.getD (le32toh be w % 256) ""
          ++ "=" ++ Nat.repr (le32toh be w / 65536 % 256) ++ "\n") := by
  rw [show_entry, fields_eq, report]
  simp only [ge_iff_le, Nat.not_le.mpr hord, if_false]
  by_cases ha : le32toh be w / 2048 % 2 = 1
  · simp [ha, Report.render]
  · have h0 : le32toh be w / 2048 % 2 = 0 := by omega
    simp [h0, Report.render]

theorem show_entry_current_unused (be : Bool) (names : List String) (cnt w w' : Nat)
    (h0 : le32toh be w / 2048 % 2 = 0)
    (hw : le32toh be w' % 16777216 = le32toh be w % 16777216) :
    show_entry be names cnt w' = show_entry be names cnt w := by
  rw [show_entry, show_entry, fields_eq, fields_eq]
  have e1 : le32toh be w' % 256 = le32toh be w % 256 := by omega
  have e2 : le32toh be w' / 256 % 8 = le32toh be w / 256 % 8 := by omega
  have e3 : le32toh be w' / 2048 % 2 = le32toh be w / 2048 % 2 := by omega
  have e4 : le32toh be w' / 65536 % 256 = le32toh be w / 65536 % 256 := by omega
  simp only [report, e1, e2, e3, e4, h0, ne_eq, not_true_eq_false, if_false]

/-- C1 (as amended): for every lane 0-4, every name of either table, every value 0-255
and either autocal setting, `show_param` on the word that `set_param` stores for
`Lane<lane>.<name>=<value>[+]` gives back the lane, the name and the autocal flag, and
the value in the initial-value field. With autocal clear that field is the value
reported; with autocal set the value reported is the current-value field, which is 0 in
a word built by `set_param`, and the original value is reported as `initial`. -/
theorem set_param_show_param_roundtrip (be : Bool) (names : List String)
    (hn : names = rxeq_param ∨ names = txeq_param) (d i v : Nat) (a : Bool) (hd : d < 5)
    (hi : i < names.length) (hv : v < 256) :
    (set_param be (setter_text d (names.getD i "") v a) names names.length).map
        (fun w => show_param be [w] 4 names names.length)
      = some [if a then .tracked d (names.getD i "") 0 v else .fixed d (names.getD i "") v] ∧
    (set_param be (setter_text d (names.getD i "") v a) names names.length).map
        (fun w => (show_param be [w] 4 names names.length).map Report.value)
      = some [some (if a then 0 else v)] := by
  have t := table_names names hn i hi
  rw [set_param_setter_text be names hn d i v a hd hi hv]
  simp only [Option.map_some', show_param_single,
    show_entry_htole32 be names i d v a hi t.2.2.2 (by omega) hv]
  cases a <;> simp [Report.value]

theorem set_param_show_param_roundtrip_witness :
    (set_param false "Lane3.Slew_Rate=200".toList txeq_param 10).map
        (fun w => show_param false [w] 4 txeq_param 10)
      = some [.fixed 3 "Slew_Rate" 200] :=
  (set_param_show_param_roundtrip false txeq_param (Or.inr rfl) 3 7 200 false (by decide)
    (by decide) (by decide)).1

/-- C1 as stated fails when autocal is set: for `Lane2.DFE_Tap1=12+` the word stored by
`set_param` is shown by `show_param` as `Lane2.DFE_Tap1=0 (initial=12)`, so the value
read back under the display policy is 0 and not the original 12. -/
theorem roundtrip_value_lost_with_autocal :
    ∃ w, set_param false "Lane2.DFE_Tap1=12+".toList rxeq_param rxeq_param_count = some w ∧
      (show_param false [w] 4 rxeq_param rxeq_param_count).map Report.render
        = ["Lane2.DFE_Tap1=0 (initial=12)\n"] ∧
      (show_param false [w] 4 rxeq_param rxeq_param_count).map Report.value ≠ [some 12] :=
  ⟨0x000C0A02, by decide, by decide, by decide⟩

/-- C2: for every lane digit 0-4, every name at index `i` of either table, every value
0-255 and either autocal flag, `set_param` on `Lane<d>.<name>=<v>[+]` succeeds and stores
the little-endian form of the word `i | (d << 8) | (a << 11) | (v << 16)`, where `i` is
the index the lookup loop finds for the name. -/
theorem set_param_wire_layout (be : Bool) (names : List String)
    (hn : names = rxeq_param ∨ names = txeq_param) (d i v : Nat) (a : Bool) (hd : d < 5)
    (hi : i < names.length) (hv : v < 256) :
    set_param be (setter_text d (names.getD i "") v a) names names.length
        = some (htole32 be (wire_word i d a v)) ∧
      le32toh be (htole32 be (wire_word i d a v)) = wire_word i d a v ∧
      find_param names names.length (names.getD i "").toList = some i := by
  have t := table_names names hn i hi
  have hw := wire_word_eq i d a v t.2.2.2 (by omega)
  have ha : (if a then 1 else 0) < 2 := by cases a <;> decide
  refine ⟨?_, ?_, t.2.2.1⟩
  · rw [hw]
    exact set_param_setter_text be names hn d i v a hd hi hv
  · rw [hw]
    exact le32toh_htole32 be _ (by omega)

theorem set_param_wire_layout_witness :
    set_param false "Lane2.DFE_Tap1=12+".toList rxeq_param 8
      = some (2 ||| (2 <<< 8) ||| (1 <<< 11) ||| (12 <<< 16)) :=
  (set_param_wire_layout false rxeq_param (Or.inl rfl) 2 2 12 true (by decide) (by decide)
    (by decide)).1

/-- C3: `set_param` returns failure, and `efx_set_rxeq`/`efx_set_txeq` print
`parse error` and return 1 without any transport call, whenever the character after
`Lane` is not a digit `0`..`4`, or the text between `.` and `=` is not exactly one of
the names of the table, or a character remains after the number and the optional `+`. -/
theorem set_param_rejects (be : Bool) (desc : List Char) (names : List String) (h : Headers)
    (k : Kernel) (w : World) (hbad : bad_lane desc ∨ bad_name desc names ∨ has_trailing desc) :
    set_param be desc names names.length = none ∧
      (names = rxeq_param →
        efx_set_rxeq h be k desc w
          = some (1, { w with stderr := w.stderr ++ "parse error\n" })) ∧
      (names = txeq_param →
        efx_set_txeq h be k desc w
          = some (1, { w with stderr := w.stderr ++ "parse error\n" })) := by
  have hnone : set_param be desc names names.length = none := by
    cases hs : set_param be desc names names.length with
    | none => rfl
    | some w0 =>
      exfalso
      obtain ⟨c4, i, hd, h4, h4g, -, -, htr, hf, -⟩ := set_param_accepts be desc names w0 hs
      rcases hbad with (hb | hb) | hb | hb
      · rw [h4g] at hb
        have hc : c4 = Char.ofNat c4.toNat := (Char.ofNat_toNat c4).symm
        have hcases : c4.toNat = 48 ∨ c4.toNat = 49 ∨ c4.toNat = 50 ∨ c4.toNat = 51 ∨
            c4.toNat = 52 := by omega
        rcases hcases with e | e | e | e | e <;>
          (rw [e] at hc; rw [hc] at hb; exact hb (by decide))
      · exact hb (by rw [hd]; rfl)
      · exact hb (find_param_some names _ i hf).2.2
      · exact hb htr
  refine ⟨hnone, ?_, ?_⟩
  · rintro rfl
    simp only [efx_set_rxeq, rxeq_param_count, hnone, eprintf]
  · rintro rfl
    simp only [efx_set_txeq, txeq_param_count, hnone, eprintf]

theorem set_param_rejects_witness :
    set_param false "Lane5.Attenuation=10".toList rxeq_param rxeq_param.length = none ∧
      set_param false "Lane1.NotAReal=5".toList rxeq_param rxeq_param.length = none ∧
      set_param false "Lane1.Attenuation=5x".toList rxeq_param rxeq_param.length = none ∧
      efx_set_rxeq example_headers false (answer_ok 3 0 []) "Lane1.Attenuation=5x".toList
        example_world = some (1, { example_world with stderr := "parse error\n" }) :=
  ⟨(set_param_rejects false "Lane5.Attenuation=10".toList rxeq_param example_headers
      (answer_ok 3 0 []) example_world (Or.inl (by decide))).1,
    (set_param_rejects false "Lane1.NotAReal=5".toList rxeq_param example_headers
      (answer_ok 3 0 []) example_world (Or.inr (Or.inl (by decide)))).1,
    (set_param_rejects false "Lane1.Attenuation=5x".toList rxeq_param example_headers
      (answer_ok 3 0 []) example_world (Or.inr (Or.inr (by decide)))).1,
    (set_param_rejects false "Lane1.Attenuation=5x".toList rxeq_param example_headers
      (answer_ok 3 0 []) example_world (Or.inr (Or.inr (by decide)))).2.1 rfl⟩

/-- C4 (as amended): a text without NUL that `set_param` accepts, and whose part after
`=` is neither empty nor a lone `+`, is of the form
`Lane<digit>.<ParameterName>=<number>[+]` with the digit in `0`..`4`, the name in the
table, and `<number>` made of optional white space, an optional sign and a non-empty
unsigned numeral in decimal, `0x`-prefixed hexadecimal or `0`-prefixed octal. -/
theorem set_param_accepts_only_setter_form (be : Bool) (desc : List Char) (names : List String)
    (w : Nat) (h : set_param be desc names names.length = some w) (hz : '\x00' ∉ desc)
    (hne : number_of desc ≠ []) (hnp : number_of desc ≠ ['+']) : SetterForm names desc := by
  obtain ⟨c4, i, hd, h4, -, -, -, htr, hf, -⟩ := set_param_accepts be desc names w h
  obtain ⟨-, -, hmem⟩ := find_param_some names _ i hf
  rw [List.mem_map] at hmem
  obtain ⟨name, hname, hnl⟩ := hmem
  have hzt : '\x00' ∉ number_of desc := by
    intro hin
    apply hz
    rw [hd]
    simp [hin]
  have hform : NumberText (number_of desc) := by
    rcases strtoul_shape (number_of desc) with he | ⟨ws, sign, ds, e1, e2, e3, e4⟩
    · rw [he] at htr
      rcases strip_plus_end _ hzt htr with e | e
      · exact absurd e hne
      · exact absurd e hnp
    · have hzr : '\x00' ∉ (strtoul (number_of desc)).2 := by
        intro hin
        apply hzt
        rw [e1]
        simp [hin]
      exact ⟨ws, sign, ds, _, e1, e2, e3, e4, strip_plus_end _ hzr htr⟩
  refine ⟨c4.toNat - 48, name, number_of desc, ?_, by omega, hname, hform⟩
  have hc : Char.ofNat (48 + (c4.toNat - 48)) = c4 := by
    rw [show 48 + (c4.toNat - 48) = c4.toNat by omega]
    exact Char.ofNat_toNat c4
  rw [hc, hnl]
  simpa using hd

theorem set_param_accepts_only_setter_form_witness :
    set_param false "Lane1.Attenuation= -0x1f+".toList rxeq_param rxeq_param.length
        = some 0xffe10900 ∧
      SetterForm rxeq_param "Lane1.Attenuation= -0x1f+".toList :=
  ⟨by decide,
    set_param_accepts_only_setter_form false "Lane1.Attenuation= -0x1f+".toList rxeq_param
      0xffe10900 (by decide) (by decide) (by decide) (by decide)⟩

/-- C4 as stated fails: `set_param` accepts texts with no digit after `=`
(`Lane1.Attenuation=` and `Lane1.Attenuation=+`, read as value 0) and texts whose number
is preceded by white space or a sign. -/
theorem set_param_accepts_outside_grammar :
    set_param false "Lane1.Attenuation=".toList rxeq_param rxeq_param_count = some 0x100 ∧
      set_param false "Lane1.Attenuation=+".toList rxeq_param rxeq_param_count = some 0x900 ∧
      set_param false "Lane1.Attenuation= 5".toList rxeq_param rxeq_param_count = some 0x50100 ∧
      set_param false "Lane1.Attenuation=+5".toList rxeq_param rxeq_param_count = some 0x50100 ∧
      set_param false "Lane1.Attenuation=-1".toList rxeq_param rxeq_param_count
        = some 0xffff0100 := by
  decide

/-- C6: for every word of a buffer whose ordinal (bits 0-7) is below the table size,
`show_param` prints the lane from bits 8-10 and the name at that ordinal; when bit 11
(autocal) is set it prints the current-value field (bits 24-31) as the value and the
initial-value field (bits 16-23) as `Lane<N>.<ParamName>=<value> (initial=<initial>)`,
otherwise it prints `Lane<N>.<ParamName>=<value>` with the initial-value field as the
value, and then a change of the current-value field does not change the entry. -/
theorem show_param_display_policy (be : Bool) (buf : List Nat) (len : Nat) (names : List String)
    (i : Nat) (hi : i < len / 4) (hord : word_at be buf i % 256 < names.length) :
    ((show_param be buf len names names.length)[i]?).map Report.render = some
      (if word_at be buf i / 2048 % 2 = 1 then
        "Lane" ++ Nat.repr (word_at be buf i / 256 % 8) ++ "."
          ++ names.getD (word_at be buf i % 256) ""
          ++ "=" ++ Nat.repr (word_at be buf i / 16777216 % 256)
          ++ " (initial=" ++ Nat.repr (word_at be buf i / 65536 % 256) ++ ")\n"
      else
        "Lane" ++ Nat.repr (word_at be buf i / 256 % 8) ++ "."
          ++ names.getD (word_at be buf i % 256) ""
          ++ "=" ++ Nat.repr (word_at be buf i / 65536 % 256) ++ "\n") ∧
    (∀ buf', word_at be buf i / 2048 % 2 = 0 →
      word_at be buf' i % 16777216 = word_at be buf i % 16777216 →
      (show_param be buf' len names names.length)[i]?
        = (show_param be buf len names names.length)[i]?) := by
  constructor
  · rw [show_param_getElem? be buf len names names.length i hi, Option.map_some',
      show_entry_render be names names.length (buf.getD i 0) hord]
    rfl
  · intro buf' h0 hw
    rw [show_param_getElem? be buf len names names.length i hi,
      show_param_getElem? be buf' len names names.length i hi,
      show_entry_current_unused be names names.length (buf.getD i 0) (buf'.getD i 0) h0 hw]

theorem show_param_display_policy_witness :
    ((show_param false [0x050C0A02, 0x050C0202] 8 rxeq_param 8)[0]?).map Report.render
        = some "Lane2.DFE_Tap1=5 (initial=12)\n" ∧
      ((show_param false [0x050C0A02, 0x050C0202] 8 rxeq_param 8)[1]?).map Report.render
        = some "Lane2.DFE_Tap1=12\n" ∧
      (show_param false [0x050C0A02, 0xFF0C0202] 8 rxeq_param 8)[1]?
        = (show_param false [0x050C0A02, 0x050C0202] 8 rxeq_param 8)[1]? :=
  ⟨(show_param_display_policy false [0x050C0A02, 0x050C0202] 8 rxeq_param 0 (by decide)
      (by decide)).1,
    (show_param_display_policy false [0x050C0A02, 0x050C0202] 8 rxeq_param 1 (by decide)
      (by decide)).1,
    (show_param_display_policy false [0x050C0A02, 0x050C0202] 8 rxeq_param 1 (by decide)
      (by decide)).2 [0x050C0A02, 0xFF0C0202] (by decide) (by decide)⟩

/-- C7: for every buffer of `len` bytes `show_param` makes exactly `len/4` reports; the
`i`-th is the report of the single word `buf[i]`, and it is the line
`unknown parameter <ordinal>` exactly when the ordinal of that word is at least the
table size. Later words are reported whatever the earlier ones were. -/
theorem show_param_reports_every_word (be : Bool) (buf : List Nat) (len : Nat)
    (names : List String) (cnt i : Nat) (hi : i < len / 4) :
    (show_param be buf len names cnt).length = len / 4 ∧
      (show_param be buf len names cnt)[i]? = some (show_entry be names cnt (buf.getD i 0)) ∧
      (((show_param be buf len names cnt)[i]?).map Report.render
          = some ("unknown parameter " ++ Nat.repr (word_at be buf i % 256) ++ "\n")
        ↔ cnt ≤ word_at be buf i % 256) := by
  refine ⟨by simp [show_param], show_param_getElem? be buf len names cnt i hi, ?_⟩
  rw [show_param_getElem? be buf len names cnt i hi, Option.map_some', Option.some.injEq]
  exact show_entry_unknown_iff be names cnt _

theorem show_param_reports_every_word_witness :
    ((show_param false [0x000C0A02, 0xff] 8 rxeq_param 8).length = 2 ∧
      (show_param false [0x000C0A02, 0xff] 8 rxeq_param 8)[1]?
        = some (show_entry false rxeq_param 8 0xff) ∧
      (((show_param false [0x000C0A02, 0xff] 8 rxeq_param 8)[1]?).map Report.render
          = some "unknown parameter 255\n" ↔ 8 ≤ 255)) ∧
    (show_param false [0x000C0A02, 0xff] 8 rxeq_param 8).map Report.render
      = ["Lane2.DFE_Tap1=0 (initial=12)\n", "unknown parameter 255\n"] ∧
    (show_param false [8, 7] 8 rxeq_param 8).map Report.render
      = ["unknown parameter 8\n", "Lane0.DFE_Gain=0\n"] ∧
    (efx_get_rxeq example_headers false (answer_ok 3 8 [0x000C0A02, 0xff]) []
        example_world).map (fun r => r.2.stdout)
      = some "Lane2.DFE_Tap1=0 (initial=12)\nunknown parameter 255\n" :=
  ⟨show_param_reports_every_word false [0x000C0A02, 0xff] 8 rxeq_param 8 1 (by decide),
    by decide, by decide, by decide⟩

/-- C8 fails on the code on a big-endian host: line 306 converts the word with `le32toh`
and line 307 prints the unconverted `outbuf[i]`. A poll response holding the wire word
`0x00010002` is read by such a host as `0x02000100`; the scan prints `256 512` for it,
where the (low 16 bits, high 16 bits) pair of the response word is (2, 1). On a
little-endian host the same response prints `2 1`. In both runs there is one batch and
the scan returns 0 at the empty response. -/
theorem efx_get_eye_prints_unconverted_words :
    le32toh true 0x02000100 = 0x00010002 ∧
      pairs_line (wire_pairs true (answer_ok 5 4 [0x02000100])) = "2 1 \n" ∧
      (efx_get_eye example_headers true (answer_ok 3 4 [0x20000]) (answer_ok 4 0 [])
        [answer_ok 5 4 [0x02000100], answer_ok 6 0 []] [] [] example_world).get?.map
          (fun r => (r.1, r.2.1.stdout, r.2.2)) = some (0, "256 512 \n", []) ∧
      (efx_get_eye example_headers false (answer_ok 3 4 [0x200]) (answer_ok 4 0 [])
        [answer_ok 5 4 [0x00010002], answer_ok 6 0 []] [] [] example_world).get?.map
          (fun r => (r.1, r.2.1.stdout, r.2.2)) = some (0, "2 1 \n", []) := by
  decide

/-- C9: when the request length or the expected response length exceeds the payload
capacity `sizeof(efx)` minus the offset of the payload, `efx_mcdi_rpc` returns -1 with
`errno = ENOMEM` and nothing else changes: no system call is made, no descriptor is
opened, the caller's buffer is untouched. -/
theorem efx_mcdi_rpc_capacity_guard (h : Headers) (be : Bool) (k : Kernel) (w : World)
    (cmd : Nat) (inbuf : List Nat) (inlen : Nat) (outbuf : List Nat) (outlen oa : Nat)
    (hbig : inlen > h.sizeof_efx - h.payload_offset ∨ outlen > h.sizeof_efx - h.payload_offset) :
    efx_mcdi_rpc h be k w cmd inbuf inlen outbuf outlen oa
        = some ⟨-1, outbuf, oa, { w with errno := ENOMEM }⟩ ∧
      (efx_mcdi_rpc h be k w cmd inbuf inlen outbuf outlen oa).map (fun r => r.world.trace)
        = some w.trace ∧
      (efx_mcdi_rpc h be k w cmd inbuf inlen outbuf outlen oa).map (fun r => r.world.open_fds)
        = some w.open_fds := by
  simp [efx_mcdi_rpc, hbig]

theorem efx_mcdi_rpc_capacity_guard_witness :
    efx_mcdi_rpc example_headers false (answer_ok 3 0 []) example_world 0xf1 [] (1028 + 1) [] 0 0
        = some ⟨-1, [], 0, { example_world with errno := ENOMEM }⟩ ∧
      (efx_mcdi_rpc example_headers false (answer_ok 3 0 []) example_world 0xf1 [] (1028 + 1) []
        0 0).map (fun r => r.world.trace) = some [] ∧
      (efx_mcdi_rpc example_headers false (answer_ok 3 0 []) example_world 0xf1 [] (1028 + 1) []
        0 0).map (fun r => r.world.open_fds) = some [0, 1, 2] :=
  efx_mcdi_rpc_capacity_guard example_headers false (answer_ok 3 0 []) example_world 0xf1 []
    (1028 + 1) [] 0 0 (by decide)

/-- C10 fails on the code: a successful call returns at line 151 without `close(fd)`.
With descriptors 0, 1, 2 open, a successful call whose `socket` returns 3 ends with
0, 1, 2, 3 open and no `close` in its system calls, while the same call with a failing
`ioctl` closes 3 again; an eye-scan of three successful polls ends with five more open
descriptors than it started with. -/
theorem efx_mcdi_rpc_success_leaves_handle_open :
    (efx_mcdi_rpc example_headers false (answer_ok 3 0 []) example_world 0xf1 [4] 4 [] 0 0).map
        (fun r => (r.rc, r.world.open_fds, r.world.trace))
      = some (0, [3, 0, 1, 2], [Syscall.socket, Syscall.ioctl 3 0xf1 4 0 [4]]) ∧
    (efx_mcdi_rpc example_headers false (answer_io_error 3) example_world 0xf1 [4] 4 [] 0
        0).map (fun r => r.world.open_fds) = some [0, 1, 2] ∧
    (efx_get_eye example_headers false (answer_ok 3 4 [0x200]) (answer_ok 4 0 [])
        [answer_ok 5 8 [0x10002, 0x30004], answer_ok 6 8 [5, 0x60000], answer_ok 7 0 []] [] []
        example_world).get?.map (fun r => (r.1, r.2.1.open_fds))
      = some (0, [7, 6, 5, 4, 3, 0, 1, 2]) := by
  decide

end Sfphytune
